import Mathlib

/-!
# Verification of the althea_rs core against its specification

This file gives a shallow embedding in Lean 4 of the parts of the
`althea_rs` repository relevant to the spec claims: the tunnel manager
(`rita/src/rita_common/tunnel_manager/mod.rs`), the relay traffic watcher
(`rita/src/rita_common/traffic_watcher/mod.rs`), the client traffic watcher
(`rita/src/rita_client/traffic_watcher/mod.rs`) and the exit `/client_debt`
endpoint (`rita/src/rita_exit/network_endpoints/mod.rs`).

Rust `HashMap`s are modelled as association lists with overwrite-on-insert
semantics, machine integers as `Nat`/`Int` with explicit `% 2^w` where the
source can overflow, fallible operations with `Except`/`Option`, and the
kernel interface / RNG / DNS resolver as explicit oracle parameters.  Calls
to the kernel interface and to Babel are recorded in an event trace.
-/

set_option autoImplicit false

namespace Althea

/-- Mesh identity: `(mesh_ip, eth_address, wg_public_key)`
(`althea_types/src/lib.rs`).  IP addresses and keys are abstracted to `Nat`;
the code only ever compares them for equality. -/
structure Identity where
  mesh_ip : Nat
  eth_address : Nat
  wg_public_key : Nat
  deriving DecidableEq, Repr

/-- `LocalIdentity`: an `Identity` plus the peer's wireguard listen port and
its assertion whether it already has a tunnel to us. -/
structure LocalIdentity where
  global : Identity
  wg_port : Nat
  have_tunnel : Option Bool
  deriving DecidableEq, Repr

/-- A neighbor observed on a physical interface
(`rita_common/peer_listener`): contact socket ip, contact socket port and
interface index. -/
structure Peer where
  ip : Nat
  port : Nat
  ifidx : Nat
  deriving DecidableEq, Repr

/-- Payment half of the tunnel state machine. -/
inductive PaymentState where
  | Paid
  | Overdue
  deriving DecidableEq, Repr

/-- Registration half of the tunnel state machine. -/
inductive RegistrationState where
  | NotRegistered
  | Registered
  deriving DecidableEq, Repr

/-- `TunnelState`, the product of the two state-machine axes. -/
structure TunnelState where
  payment_state : PaymentState
  registration_state : RegistrationState
  deriving DecidableEq, Repr

/-- In-memory record for one wireguard tunnel
(`tunnel_manager/mod.rs`, `struct Tunnel`).  `last_contact` is an absolute
monotonic timestamp (the source stores an `Instant`). -/
structure Tunnel where
  ip : Nat
  iface_name : String
  listen_ifidx : Nat
  listen_port : Nat
  neigh_id : LocalIdentity
  last_contact : Nat
  state : TunnelState
  deriving DecidableEq, Repr

/-- `Tunnel::new`: fresh tunnels start `{Paid, Registered}` with
`last_contact = Instant::now()`. -/
def Tunnel.mk' (ip : Nat) (iface_name : String) (our_listen_port : Nat)
    (ifidx : Nat) (their_id : LocalIdentity) (now : Nat) : Tunnel :=
  { ip := ip
    iface_name := iface_name
    listen_ifidx := ifidx
    listen_port := our_listen_port
    neigh_id := their_id
    last_contact := now
    state := { payment_state := .Paid, registration_state := .Registered } }

/-! ## Association lists

Rust `HashMap`s are modelled as association lists.  `alGet` returns the
first binding, `alInsert` overwrites an existing binding (as
`HashMap::insert` does), `alModify` mutates the value under a key if
present (as `HashMap::get_mut`). -/

section AList

variable {α : Type} {β : Type} [DecidableEq α]

/-- Lookup of the first binding for a key. -/
def alGet : List (α × β) → α → Option β
  | [], _ => none
  | (k', v) :: rest, k => if k' = k then some v else alGet rest k

/-- Insert with overwrite semantics (`HashMap::insert`). -/
def alInsert : List (α × β) → α → β → List (α × β)
  | [], k, v => [(k, v)]
  | (k', v') :: rest, k, v =>
      if k' = k then (k, v) :: rest else (k', v') :: alInsert rest k v

/-- Modify the value bound to a key, if present (`HashMap::get_mut`). -/
def alModify : List (α × β) → α → (β → β) → List (α × β)
  | [], _, _ => []
  | (k', v) :: rest, k, f =>
      if k' = k then (k', f v) :: rest else (k', v) :: alModify rest k f

/-- Remove a key (`HashMap::remove`). -/
def alRemove : List (α × β) → α → List (α × β)
  | [], _ => []
  | (k', v) :: rest, k =>
      if k' = k then rest else (k', v) :: alRemove rest k

@[simp] theorem alGet_nil (k : α) : alGet ([] : List (α × β)) k = none := rfl

@[simp] theorem alGet_cons (k' : α) (v : β) (rest : List (α × β)) (k : α) :
    alGet ((k', v) :: rest) k = if k' = k then some v else alGet rest k := rfl

theorem alGet_alInsert_self (l : List (α × β)) (k : α) (v : β) :
    alGet (alInsert l k v) k = some v := by
  induction l with
  | nil => simp [alInsert]
  | cons hd tl ih =>
    obtain ⟨k', v'⟩ := hd
    by_cases h : k' = k <;> simp [alInsert, h, ih]

theorem alGet_alInsert_ne (l : List (α × β)) (k k' : α) (v : β) (h : k ≠ k') :
    alGet (alInsert l k v) k' = alGet l k' := by
  induction l with
  | nil => simp [alInsert, h]
  | cons hd tl ih =>
    obtain ⟨k₀, v₀⟩ := hd
    by_cases h0 : k₀ = k
    · subst h0
      simp [alInsert, h]
    · simp only [alInsert, if_neg h0]
      by_cases h1 : k₀ = k' <;> simp [h1, ih]

theorem alGet_alModify_self (l : List (α × β)) (k : α) (f : β → β) :
    alGet (alModify l k f) k = (alGet l k).map f := by
  induction l with
  | nil => simp [alModify]
  | cons hd tl ih =>
    obtain ⟨k', v⟩ := hd
    by_cases h : k' = k <;> simp [alModify, h, ih]

theorem alGet_alModify_ne (l : List (α × β)) (k k' : α) (f : β → β)
    (h : k ≠ k') : alGet (alModify l k f) k' = alGet l k' := by
  induction l with
  | nil => simp [alModify]
  | cons hd tl ih =>
    obtain ⟨k₀, v⟩ := hd
    by_cases h0 : k₀ = k
    · subst h0
      simp [alModify, h]
    · simp only [alModify, if_neg h0]
      by_cases h1 : k₀ = k' <;> simp [h1, ih]

end AList

/-! ## Kernel interface / Babel event trace

Calls the tunnel manager makes against the kernel facade (`KI`) and the
Babel monitor are recorded as events so that claims about which calls
happen (and in which order) can be stated. -/

/-- One observable call made by the tunnel manager. -/
inductive TMEvent where
  /-- `self.tunnels = good` in the GC handler: the storage map is replaced. -/
  | storageSet
  /-- `Tunnel::unmonitor` (Babel `unmonitor <iface>`). -/
  | unmonitorCall (iface : String)
  /-- `Tunnel::monitor` (Babel `monitor <iface>`). -/
  | monitorCall (iface : String)
  /-- `KI.del_interface(iface)`. -/
  | delInterfaceCall (iface : String)
  /-- `self.free_ports.push(port)`. -/
  | pushPort (port : Nat)
  /-- `KI.open_tunnel(iface, port, ..)` from `Tunnel::open`. -/
  | openTunnelCall (iface : String) (port : Nat)
  /-- `KI.set_codel_shaping(iface)`. -/
  | setCodelShapingCall (iface : String)
  /-- `KI.set_classless_limit(iface, bps)`. -/
  | setClasslessLimitCall (iface : String) (bps : Nat)
  deriving DecidableEq, Repr

/-! ## Tunnel manager state -/

/-- `struct TunnelManager { free_ports, tunnels }`.  The tunnel storage
`HashMap<Identity, Vec<Tunnel>>` is an association list of identity-keyed
tunnel lists. -/
structure TMState where
  free_ports : List Nat
  tunnels : List (Identity × List Tunnel)
  deriving DecidableEq, Repr

/-- `TunnelManager::new()`: the pool is `(wg_start_port..65535).collect()`
and the storage is empty. -/
def TMState.new (wg_start_port : Nat) : TMState :=
  { free_ports := List.range' wg_start_port (65535 - wg_start_port)
    tunnels := [] }

/-! ## `TunnelManager::get_port`

`get_port(level)` draws a random element of `free_ports`, consults
`KI.used_ports()`, and

* on OS agreement returns the port,
* on disagreement pushes the port back and recurses with `level + 1`
  while `level < 10`, and `panic!`s once `level` reaches 10,
* returns `None` when `used_ports()` itself failed.

The RNG is an oracle `rng : Nat → Nat` giving the raw draw of each attempt
(`gen_range(0, len)` is the draw modulo the pool size; `gen_range` panics
on an empty pool).  `used_ports()` is a constant oracle
`Option (List Nat)`.  The recursion is expressed on the remaining budget
`10 - level`. -/

/-- Result of `get_port`: a verified-free port together with the remaining
pool, `None` from a failed `used_ports()` check, or a `panic!`. -/
inductive GetPortResult where
  | found (port : Nat) (pool : List Nat)
  | osCheckFailed (pool : List Nat)
  | panicked
  deriving DecidableEq, Repr

/-- The recursion of `get_port`; `budget = 10 - level` (the structural
recursion argument, so that the `level < 10` guard of the source is the
`budget = b + 1` pattern). -/
def getPortAux (used : Option (List Nat)) (rng : Nat → Nat)
    (attempt : Nat) : Nat → List Nat → GetPortResult
  | _, [] => .panicked
  | budget, pool@(_ :: _) =>
      let val := rng attempt % pool.length
      let port := pool.getD val 0
      let pool' := pool.eraseIdx val
      match used with
      | some used_ports =>
          if port ∈ used_ports then
            match budget with
            | b + 1 => getPortAux used rng (attempt + 1) b (pool' ++ [port])
            | 0 => .panicked
          else
            .found port pool'
      | none => .osCheckFailed pool'

/-- `get_port(0)` as called by every caller. -/
def getPort (used : Option (List Nat)) (rng : Nat → Nat)
    (pool : List Nat) : GetPortResult :=
  getPortAux used rng 0 10 pool

/-! ## `TunnelManager::neighbor_inquiry_hostname`

The handler allocates a speculative port, spawns a DNS resolution with a
1 s timeout, and in the continuation:

* `Ok(Ok(dnsresult))`: if the result is non-empty **and** we are a
  gateway, a `Hello` carrying the port is sent to every resolved address;
  otherwise nothing happens (the port is neither returned nor attached);
* `Err(mailbox error)` or `Ok(Err(dns error))`: the port is returned to
  the pool via `PortCallback`. -/

/-- Outcome of the actix resolver future, as matched by the source. -/
inductive ResolverOutcome where
  /-- `Ok(Ok(dnsresult))`: resolved to a list of socket addresses. -/
  | resolved (addrs : List Nat)
  /-- `Err(e)`: actor mailbox failure. -/
  | mailboxError
  /-- `Ok(Err(e))`: DNS resolution failure. -/
  | dnsError
  deriving DecidableEq, Repr

/-- Observable actions of the DNS continuation. -/
inductive InquiryAction where
  /-- `contact_neighbor(peer, our_port)`: a `Hello` carrying `our_port`. -/
  | helloSent (their_ip : Nat) (our_port : Nat)
  /-- `PortCallback(our_port)`: the port is pushed back into the pool. -/
  | portCallback (our_port : Nat)
  deriving DecidableEq, Repr

/-- The continuation spawned by `neighbor_inquiry_hostname` once the
speculative port `our_port` has been drawn. -/
def hostnameInquiryCont (is_gateway : Bool) (our_port : Nat) :
    ResolverOutcome → List InquiryAction
  | .resolved addrs =>
      if ¬addrs.isEmpty ∧ is_gateway then
        addrs.map fun ip => .helloSent ip our_port
      else
        []
  | .mailboxError => [.portCallback our_port]
  | .dnsError => [.portCallback our_port]

/-! ## `TunnelManager::open_tunnel` -/

/-- `have_tunnel_by_ip`. -/
def haveTunnelByIp (ip : Nat) (tunnels : List Tunnel) : Bool :=
  tunnels.any fun t => decide (t.ip = ip)

/-- `have_tunnel_by_ifidx`. -/
def haveTunnelByIfidx (ifidx : Nat) (tunnels : List Tunnel) : Bool :=
  tunnels.any fun t => decide (t.listen_ifidx = ifidx)

/-- `get_tunnel_by_ifidx`: first tunnel with the given interface index. -/
def getTunnelByIfidx (ifidx : Nat) : List Tunnel → Option Tunnel
  | [] => none
  | t :: rest =>
      if t.listen_ifidx = ifidx then some t else getTunnelByIfidx ifidx rest

/-- `del_tunnel`: `tunnels.retain(|val| *val != *to_del)`. -/
def delTunnel (to_del : Tunnel) (tunnels : List Tunnel) : List Tunnel :=
  tunnels.filter fun t => decide (t ≠ to_del)

/-- Append a tunnel under its key:
`self.tunnels.entry(new_key).or_insert_with(Vec::new).push(tunnel)`. -/
def insertTunnel (tunnels : List (Identity × List Tunnel)) (key : Identity)
    (t : Tunnel) : List (Identity × List Tunnel) :=
  match alGet tunnels key with
  | some _ => alModify tunnels key (fun ts => ts ++ [t])
  | none => alInsert tunnels key [t]

/-- The shared tail of `open_tunnel` that creates a fresh tunnel:
`Tunnel::new` with a fresh kernel interface name (`KI.setup_wg_if`,
oracle `freshIface`), `tunnel.open()` (`KI.open_tunnel` then
`KI.set_codel_shaping`; the oracle `openOk` decides whether it succeeds —
on failure `open_tunnel` returns the error), `tunnel.monitor()`, and
insertion into storage. -/
def createNewTunnel (now : Nat) (freshIface : String) (openOk : Bool)
    (their_localid : LocalIdentity) (peer : Peer) (our_port : Nat)
    (return_bool : Bool) (st : TMState) (evs : List TMEvent) :
    Except Unit (TMState × Tunnel × Bool × List TMEvent) :=
  let tunnel := Tunnel.mk' peer.ip freshIface our_port peer.ifidx
    their_localid now
  if openOk then
    let evs := evs ++ [.openTunnelCall freshIface our_port,
      .setCodelShapingCall freshIface, .monitorCall freshIface]
    let new_key := tunnel.neigh_id.global
    .ok ({ st with tunnels := insertTunnel st.tunnels new_key tunnel },
      tunnel, return_bool, evs)
  else
    .error ()

/-- `TunnelManager::open_tunnel(their_localid, peer, our_port)`.

Returns the updated state, the resulting tunnel, the `already existed`
flag, and the trace of kernel/Babel calls.  The `.expect`/`.unwrap` panics
of the source (reachable only if `we_have_tunnel` were inconsistent with
storage) are modelled as `.error ()`, as is a failing `tunnel.open()`. -/
def openTunnel (now : Nat) (freshIface : String) (openOk : Bool)
    (their_localid : LocalIdentity) (peer : Peer) (our_port : Nat)
    (st : TMState) : Except Unit (TMState × Tunnel × Bool × List TMEvent) :=
  let key := their_localid.global
  let we_have_tunnel :=
    match alGet st.tunnels key with
    | some tunnels =>
        haveTunnelByIfidx peer.ifidx tunnels && haveTunnelByIp peer.ip tunnels
    | none => false
  let they_have_tunnel := their_localid.have_tunnel.getD true
  if we_have_tunnel then
    -- bump `last_contact` on every tunnel matching the peer's ifidx and ip
    let st₁ : TMState :=
      { st with
        tunnels := alModify st.tunnels key fun ts =>
          ts.map fun t =>
            if t.listen_ifidx = peer.ifidx ∧ t.ip = peer.ip then
              { t with last_contact := now }
            else t }
    if they_have_tunnel then
      -- return the speculative port, look the tunnel up by ifidx
      let st₂ : TMState :=
        { st₁ with free_ports := st₁.free_ports ++ [our_port] }
      match alGet st₂.tunnels key with
      | some tunnels =>
          match getTunnelByIfidx peer.ifidx tunnels with
          | some tunnel => .ok (st₂, tunnel, true, [])
          | none => .error ()
      | none => .error ()
    else
      -- they don't have a tunnel: drop ours and fall through to create
      match alGet st₁.tunnels key with
      | some ts =>
          match getTunnelByIfidx peer.ifidx ts with
          | some value =>
              let ts' := delTunnel value ts
              let tunnels₁ := alModify st₁.tunnels key fun _ => ts'
              let tunnels₂ :=
                if ts'.length = 0 then alRemove tunnels₁ key else tunnels₁
              let st₂ : TMState :=
                { free_ports := st₁.free_ports ++ [value.listen_port]
                  tunnels := tunnels₂ }
              createNewTunnel now freshIface openOk their_localid peer
                our_port true st₂
                [.delInterfaceCall value.iface_name,
                 .pushPort value.listen_port]
          | none => .error ()
      | none => .error ()
  else
    createNewTunnel now freshIface openOk their_localid peer our_port
      false st []

/-! ## `Handler<TriggerGC>`

The handler splits every stored tunnel into *good*
(`last_contact.elapsed() < msg.0`) and *timed out*, replaces the storage
map with the good partition **before** touching any interface, and then
for each timed-out tunnel calls `unmonitor`, `KI.del_interface(..)?`
(the `?` aborts the handler on failure, skipping the remaining tunnels)
and pushes its port back.  `elapsed()` is `now - last_contact`. -/

/-- The good partition: per identity, the tunnels with
`now - last_contact < threshold`; identities left with no good tunnel are
absent (the source only inserts keys on the first good tunnel). -/
def gcGood (now threshold : Nat) (tunnels : List (Identity × List Tunnel)) :
    List (Identity × List Tunnel) :=
  tunnels.filterMap fun idts =>
    let g := idts.2.filter fun t => decide (now - t.last_contact < threshold)
    if g.isEmpty then none else some (idts.1, g)

/-- The timed-out partition, flattened in iteration order. -/
def gcTimedOut (now threshold : Nat)
    (tunnels : List (Identity × List Tunnel)) : List Tunnel :=
  ((tunnels.map Prod.snd).flatten).filter fun t =>
    decide (¬(now - t.last_contact < threshold))

/-- The destruction loop of the GC handler.  Returns the final port pool,
the events emitted, and whether the handler returned `Ok`. -/
def gcProcess (delOk : String → Bool) :
    List Tunnel → List Nat → List TMEvent → List Nat × List TMEvent × Bool
  | [], ports, evs => (ports, evs, true)
  | t :: rest, ports, evs =>
      let evs := evs ++ [.unmonitorCall t.iface_name,
        .delInterfaceCall t.iface_name]
      if delOk t.iface_name then
        gcProcess delOk rest (ports ++ [t.listen_port])
          (evs ++ [.pushPort t.listen_port])
      else
        (ports, evs, false)

/-- `Handler<TriggerGC>::handle` with threshold `T` at time `now`;
`delOk` tells whether `KI.del_interface` succeeds on an interface. -/
def triggerGC (now T : Nat) (delOk : String → Bool) (st : TMState) :
    TMState × List TMEvent × Bool :=
  let good := gcGood now T st.tunnels
  let timed_out := gcTimedOut now T st.tunnels
  let res := gcProcess delOk timed_out st.free_ports [TMEvent.storageSet]
  ({ free_ports := res.1, tunnels := good }, res.2.1, res.2.2)

/-! ## `tunnel_state_change` and `tunnel_bw_limit_update`

Payment/registration transitions per tunnel, with the bandwidth-limit
update run at the end of `tunnel_state_change` whenever that one message
caused a payment transition.  The kernel's per-interface shaping state
(`KI.has_limit`) is the oracle `limits : String → Bool`, updated by
`set_classless_limit` (limit present) and `set_codel_shaping` (limit
removed).  The source's `KI` calls return `Result`; they are modelled as
always succeeding. -/

/-- `enum TunnelAction`. -/
inductive TunnelAction where
  | MembershipConfirmed
  | MembershipExpired
  | PaymentOverdue
  | PaidOnTime
  deriving DecidableEq, Repr

/-- `struct TunnelChange`. -/
structure TunnelChange where
  identity : Identity
  action : TunnelAction
  deriving DecidableEq, Repr

/-- The per-tunnel `match action` of `tunnel_state_change`: the updated
tunnel, whether a payment transition occurred
(`tunnel_bw_limits_need_change`), and the monitor/unmonitor calls made. -/
def applyTunnelAction (action : TunnelAction) (t : Tunnel) :
    Tunnel × Bool × List TMEvent :=
  match action with
  | .MembershipConfirmed =>
      match t.state.registration_state with
      | .NotRegistered =>
          ({ t with state := { t.state with registration_state := .Registered } },
            false, [.monitorCall t.iface_name])
      | .Registered => (t, false, [])
  | .MembershipExpired =>
      match t.state.registration_state with
      | .Registered =>
          ({ t with state := { t.state with registration_state := .NotRegistered } },
            false, [.unmonitorCall t.iface_name])
      | .NotRegistered => (t, false, [])
  | .PaidOnTime =>
      match t.state.payment_state with
      | .Paid => (t, false, [])
      | .Overdue =>
          ({ t with state := { t.state with payment_state := .Paid } },
            true, [])
  | .PaymentOverdue =>
      match t.state.payment_state with
      | .Paid =>
          ({ t with state := { t.state with payment_state := .Overdue } },
            true, [])
      | .Overdue => (t, false, [])

/-- Number of tunnels currently `Overdue` (`limited_interfaces`). -/
def countOverdue (tunnels : List (Identity × List Tunnel)) : Nat :=
  (((tunnels.map Prod.snd).flatten).filter
    fun t => decide (t.state.payment_state = .Overdue)).length

/-- The iteration of `tunnel_bw_limit_update` over all tunnels with the
already-computed per-interface budget `bw`.  The kernel shaping state
(`KI.has_limit`) threads through: `set_classless_limit` installs a limit,
`set_codel_shaping` removes one. -/
def bwLimitGo (bw : Nat) : List Tunnel → (String → Bool) →
    (String → Bool) × List TMEvent
  | [], limits => (limits, [])
  | t :: rest, limits =>
      let has_limit := limits t.iface_name
      if t.state.payment_state = .Overdue then
        let r := bwLimitGo bw rest
          fun i => if i = t.iface_name then true else limits i
        (r.1, .setClasslessLimitCall t.iface_name bw :: r.2)
      else if t.state.payment_state = .Paid ∧ has_limit then
        let r := bwLimitGo bw rest
          fun i => if i = t.iface_name then false else limits i
        (r.1, .setCodelShapingCall t.iface_name :: r.2)
      else
        bwLimitGo bw rest limits

/-- `tunnel_bw_limit_update`: count the `Overdue` tunnels (`k`), divide
`free_tier_throughput` by `k` when `k > 0`, then walk every tunnel:
`Overdue` gets `set_classless_limit(iface, bw)`, `Paid` with a limit gets
`set_codel_shaping(iface)`. -/
def tunnelBwLimitUpdate (free_tier : Nat)
    (tunnels : List (Identity × List Tunnel)) (limits : String → Bool) :
    (String → Bool) × List TMEvent :=
  let limited := countOverdue tunnels
  let bw := if limited > 0 then free_tier / limited else free_tier
  bwLimitGo bw ((tunnels.map Prod.snd).flatten) limits

/-- The `for tunnel in tunnels.iter_mut()` loop of `tunnel_state_change`:
applies the action to every tunnel of the identity, or-ing the
`tunnel_bw_limits_need_change` flags and concatenating the
monitor/unmonitor calls. -/
def applyActionAll (action : TunnelAction) :
    List Tunnel → List Tunnel × Bool × List TMEvent
  | [] => ([], false, [])
  | t :: rest =>
      let r := applyTunnelAction action t
      let rr := applyActionAll action rest
      (r.1 :: rr.1, r.2.1 || rr.2.1, r.2.2 ++ rr.2.2)

/-- `tunnel_state_change(msg, tunnels)` for one `TunnelChange`.  Applies
the action to every tunnel of the identity, then — if this message caused
a payment transition — runs the bandwidth-limit update immediately. -/
def tunnelStateChange (free_tier : Nat) (c : TunnelChange)
    (tunnels : List (Identity × List Tunnel)) (limits : String → Bool) :
    List (Identity × List Tunnel) × (String → Bool) × List TMEvent :=
  match alGet tunnels c.identity with
  | some ts =>
      let step := applyActionAll c.action ts
      let tunnels₁ := alModify tunnels c.identity fun _ => step.1
      if step.2.1 then
        let upd := tunnelBwLimitUpdate free_tier tunnels₁ limits
        (tunnels₁, upd.1, step.2.2 ++ upd.2)
      else
        (tunnels₁, limits, step.2.2)
  | none => (tunnels, limits, [])

/-- `Handler<TunnelStateChange>::handle`: processes the batch one change
at a time, each change running `tunnel_state_change` (and hence possibly
its own bandwidth-limit update). -/
def handleTunnelStateChange (free_tier : Nat) :
    List TunnelChange → List (Identity × List Tunnel) → (String → Bool) →
    List (Identity × List Tunnel) × (String → Bool) × List TMEvent
  | [], tunnels, limits => (tunnels, limits, [])
  | c :: cs, tunnels, limits =>
      let r := tunnelStateChange free_tier c tunnels limits
      let rr := handleTunnelStateChange free_tier cs r.1 r.2.1
      (rr.1, rr.2.1, r.2.2 ++ rr.2.2)

/-! ## Relay traffic watcher (`rita_common/traffic_watcher/mod.rs`)

`watch(routes, neighbors)` builds helper maps from the neighbors, a
destination-price map from Babel routes, reads the merged
Input+ForwardInput and Output+ForwardOutput counters, folds them into a
per-identity debts map and emits it as a `TrafficUpdate`.  The counters
are passed in as already-merged finite maps (the kernel read is an
oracle); route prices are `u32` and the `price + local_fee` addition in
`get_babel_info` wraps at `2^32` (release-mode Rust). -/

/-- A Babel route as parsed by `babel_monitor`: prefix (address and
length, with an IPv6 flag), installed flag, price, metric and refmetric. -/
structure Route where
  prefixIp : Nat
  prefixLen : Nat
  isIpv6 : Bool
  installed : Bool
  price : Nat
  metric : Nat
  refmetric : Nat
  deriving DecidableEq, Repr

/-- `tunnel_manager::Neighbor` as consumed by the traffic watcher. -/
structure Neighbor where
  identity : LocalIdentity
  iface_name : String
  tunnel_ip : Nat
  deriving DecidableEq, Repr

/-- `prepare_helper_maps`: `identities : mesh_ip → Identity` and
`if_to_id : iface_name → Identity`, built by insertion in neighbor
order. -/
def prepareHelperMaps (neighbors : List Neighbor) :
    List (Nat × Identity) × List (String × Identity) :=
  neighbors.foldl
    (fun acc n =>
      (alInsert acc.1 n.identity.global.mesh_ip n.identity.global,
       alInsert acc.2 n.iface_name n.identity.global))
    ([], [])

/-- `get_babel_info`: the destination-price map.  Only installed IPv6
`/128` routes participate; the price is capped at `max_fee` and
`local_fee` is added (a `u32` addition, wrapping at `2^32`); finally the
node's own `mesh_ip` is inserted with price `0` (`bail!` if it is not
configured). -/
def getBabelInfo (local_fee max_fee : Nat) (mesh_ip : Option Nat)
    (routes : List Route) : Except Unit (List (Nat × Int) × Nat) :=
  let destinations := routes.foldl
    (fun dests r =>
      if r.isIpv6 ∧ r.prefixLen = 128 ∧ r.installed then
        let price := if r.price > max_fee then max_fee else r.price
        alInsert dests r.prefixIp (Int.ofNat ((price + local_fee) % 4294967296))
      else dests)
    []
  match mesh_ip with
  | some ip => .ok (alInsert destinations ip 0, local_fee)
  | none => .error ()

/-- The debts computation of `watch(routes, neighbors)`: initialise a
zero debt for every known identity, debit `price * bytes` per mapped
input row, credit `(price - local_fee) * bytes` per mapped output row;
rows whose destination or interface lacks a mapping are skipped.  The
returned association list is exactly the `traffic` vector of the emitted
`TrafficUpdate`. -/
def watchRelay (local_fee max_fee : Nat) (mesh_ip : Option Nat)
    (neighbors : List Neighbor) (routes : List Route)
    (input_counters output_counters : List ((Nat × String) × Nat)) :
    Except Unit (List (Identity × Int)) :=
  let maps := prepareHelperMaps neighbors
  match getBabelInfo local_fee max_fee mesh_ip routes with
  | .error () => .error ()
  | .ok (destinations, fee) =>
      let debts₀ := maps.1.foldl (fun d kv => alInsert d kv.2 0) []
      let debts₁ := input_counters.foldl
        (fun d row =>
          match alGet destinations row.1.1, alGet maps.2 row.1.2 with
          | some dest, some id =>
              alModify d id fun x => x - dest * Int.ofNat row.2
          | _, _ => d)
        debts₀
      let debts₂ := output_counters.foldl
        (fun d row =>
          match alGet destinations row.1.1, alGet maps.2 row.1.2 with
          | some dest, some id =>
              alModify d id fun x => x + (dest - Int.ofNat fee) * Int.ofNat row.2
          | _, _ => d)
        debts₁
      .ok debts₂

/-! ## Client traffic watcher (`rita_client/traffic_watcher/mod.rs`) -/

/-- The cursor state of the client traffic watcher. -/
structure ClientHistory where
  last_read_input : Nat
  last_read_output : Nat
  deriving DecidableEq, Repr

/-- One `read_wg_counters` entry: cumulative download/upload bytes
(`u64`). -/
structure WgCounter where
  download : Nat
  upload : Nat
  deriving DecidableEq, Repr

/-- `UsageType` of the usage tracker. -/
inductive UsageKind where
  | Client
  | Relay
  deriving DecidableEq, Repr

/-- An `UpdateUsage` message to the usage tracker. -/
structure UsageRecord where
  kind : UsageKind
  up : Nat
  down : Nat
  price : Nat
  deriving DecidableEq, Repr

/-- Modelled from the spec: `babel_monitor::get_installed_route` (the
`babel_monitor` crate is part of the repository but not under `src/`),
which per §4.5 "finds the installed route to `exit.mesh_ip`": the first
route for that destination address with `installed` set. -/
def getInstalledRoute (mesh_ip : Nat) : List Route → Option Route
  | [] => none
  | r :: rest =>
      if r.installed ∧ r.prefixIp = mesh_ip then some r
      else getInstalledRoute mesh_ip rest

/-- `find_exit_route_capped`: the installed route to the exit with its
price capped at `max_fee`. -/
def findExitRouteCapped (max_fee : Nat) (exit_mesh_ip : Nat)
    (routes : List Route) : Except Unit Route :=
  match getInstalledRoute exit_mesh_ip routes with
  | none => .error ()
  | some exit_route =>
      .ok (if exit_route.price > max_fee then
             { exit_route with price := max_fee }
           else exit_route)

/-- `rita_client::traffic_watcher::watch`: reset both cursors on counter
regression, difference the cumulative counters, update the cursors,
compute `owes_exit` (the `input` term exactly in `i128`, the
`exit_price * output` term in `u64`, wrapping at `2^64`, before widening)
and emit a `UsageType::Client` usage record when `owes_exit > 0` (its
`price` field is `exit_dest_price as u32`).  The wg counter for the
single `wg_exit` peer is passed in as an oracle. -/
def watchClient (max_fee : Nat) (exit : Identity) (exit_price : Nat)
    (routes : List Route) (history : ClientHistory) (counter : WgCounter) :
    Except Unit (ClientHistory × Int × Option UsageRecord) :=
  match findExitRouteCapped max_fee exit.mesh_ip routes with
  | .error () => .error ()
  | .ok exit_route =>
      let history₁ :=
        if history.last_read_input > counter.download ∨
            history.last_read_output > counter.upload then
          (⟨0, 0⟩ : ClientHistory)
        else history
      let input := counter.download - history₁.last_read_input
      let output := counter.upload - history₁.last_read_output
      let history₂ : ClientHistory := ⟨counter.download, counter.upload⟩
      let exit_route_price : Int := Int.ofNat exit_route.price
      let exit_dest_price : Int := exit_route_price + Int.ofNat exit_price
      let owes_exit : Int :=
        Int.ofNat input * exit_dest_price +
          Int.ofNat ((exit_price * output) % 18446744073709551616)
      let usage : Option UsageRecord :=
        if owes_exit > 0 then
          some { kind := .Client, up := output, down := input,
                 price := (exit_dest_price % 4294967296).toNat }
        else none
      .ok (history₂, owes_exit, usage)

/-! ## Exit `/client_debt` endpoint
(`rita_exit/network_endpoints/mod.rs`) and the client-side
`QueryExitDebts` consumer (`rita_client/traffic_watcher/mod.rs`) -/

/-- Modelled from the spec: one entry of the Debt Keeper's `GetDebtsList`
reply (the `debt_keeper` module is part of the repository but not under
`src/`): the identity and its running balance (`payment_details.debt`).
Per the relay traffic watcher's own convention
(`rita_common/traffic_watcher`, §4.4: forwarded-for-them bytes are
credited positive, received-from-them bytes are debited negative), a
negative balance means the counterparty owes us. -/
structure DebtsEntry where
  identity : Identity
  debt : Int
  deriving DecidableEq, Repr

/-- Modelled from the spec: the amount the client owes the exit, i.e. the
negation of the Debt Keeper balance under the convention above. -/
def owedByClient (balance : Int) : Int := -balance

/-- The response of an HTTP endpoint, as far as the claims observe it. -/
inductive HttpResp where
  /-- `HttpResponse::Ok().json(v)` with a bare integer body. -/
  | okJson (v : Int)
  /-- `HttpResponse::NotFound()`. -/
  | notFound
  deriving DecidableEq, Repr

/-- `get_client_debt`: walk the Debt Keeper's debts list and answer the
first entry whose identity equals the posted client with
`debt * Int256::from(-1)` as a bare integer JSON value; `NotFound`
otherwise.  (The debt-keeper-unreachable branch answering
`InternalServerError` is not modelled: the claims assume a debts
list.) -/
def getClientDebt (client : Identity) : List DebtsEntry → HttpResp
  | [] => .notFound
  | e :: rest =>
      if e.identity = client then .okJson (e.debt * (-1))
      else getClientDebt client rest

/-- The client-side continuation of `QueryExitDebts` on a successfully
parsed response `debt`: when `debt >= 0` a
`TrafficReplace { from: exit_id, amount: debt }` is sent to the Debt
Keeper; a negative value is only logged. -/
def queryExitDebtsConsume (exit_id : Identity) (debt : Int) :
    Option (Identity × Int) :=
  if 0 ≤ debt then some (exit_id, debt) else none

/-! ## Theorems -/

/-- C10: in `neighbor_inquiry_hostname`, the speculative port is returned
to the pool via `PortCallback` in exactly the two failure outcomes
(resolver mailbox error and DNS resolution error); on a successful
resolution with an empty address list, or when the node is not a gateway,
the continuation does nothing at all: no `Hello` is sent and the port is
neither attached to a tunnel nor returned. -/
theorem c10_hostname_inquiry_port (is_gateway : Bool) (our_port : Nat)
    (o : ResolverOutcome) :
    (InquiryAction.portCallback our_port ∈
        hostnameInquiryCont is_gateway our_port o ↔
      o = .mailboxError ∨ o = .dnsError) ∧
    (∀ addrs, o = .resolved addrs → addrs = [] ∨ is_gateway = false →
      hostnameInquiryCont is_gateway our_port o = []) := by
  constructor
  · cases o with
    | resolved addrs =>
        simp only [hostnameInquiryCont]
        by_cases h : ¬addrs.isEmpty ∧ is_gateway = true
        · simp only [if_pos h, List.mem_map]
          constructor
          · rintro ⟨ip, _, h2⟩
            exact absurd h2 (by simp)
          · rintro (h1 | h1) <;> exact absurd h1 (by simp)
        · simp only [if_neg h, List.not_mem_nil, false_iff]
          rintro (h1 | h1) <;> exact absurd h1 (by simp)
    | mailboxError => simp [hostnameInquiryCont]
    | dnsError => simp [hostnameInquiryCont]
  · rintro addrs rfl (rfl | hgw)
    · simp [hostnameInquiryCont]
    · subst hgw
      simp [hostnameInquiryCont]

/-- Closed witness for `c10_hostname_inquiry_port`. -/
theorem c10_hostname_inquiry_port_witness :
    hostnameInquiryCont true 60000 (.resolved []) = [] ∧
    InquiryAction.portCallback 60000 ∈
      hostnameInquiryCont true 60000 .dnsError :=
  ⟨(c10_hostname_inquiry_port true 60000 (.resolved [])).2 [] rfl (Or.inl rfl),
   (c10_hostname_inquiry_port true 60000 .dnsError).1.mpr (Or.inr rfl)⟩

/-- C9: when the Debt Keeper's debts list has an entry for the posted
client, `/client_debt` answers `debt * (-1)` — the amount the client owes
the exit under the ledger's sign convention — as a bare integer body; the
value is non-negative exactly when the stored balance is non-positive
(client owes exit), and the client-side `QueryExitDebts` forwards it as a
`TrafficReplace` precisely when it is non-negative. -/
theorem c9_client_debt (debts : List DebtsEntry) (client exit_id : Identity)
    (e : DebtsEntry) (hmem : e ∈ debts) (hid : e.identity = client)
    (huniq : ∀ e' ∈ debts, e'.identity = client → e' = e) :
    getClientDebt client debts = .okJson (owedByClient e.debt) ∧
    (0 ≤ owedByClient e.debt ↔ e.debt ≤ 0) ∧
    queryExitDebtsConsume exit_id (owedByClient e.debt) =
      if 0 ≤ owedByClient e.debt then
        some (exit_id, owedByClient e.debt)
      else none := by
  refine ⟨?_, by simp [owedByClient], rfl⟩
  induction debts with
  | nil => exact absurd hmem (List.not_mem_nil e)
  | cons e₀ rest ih =>
    by_cases h : e₀.identity = client
    · have he₀ : e₀ = e := huniq e₀ (List.mem_cons_self e₀ rest) h
      subst he₀
      simp [getClientDebt, h, owedByClient, mul_comm]
    · have hmem' : e ∈ rest := by
        rcases List.mem_cons.mp hmem with rfl | hm
        · exact absurd hid h
        · exact hm
      have huniq' : ∀ e' ∈ rest, e'.identity = client → e' = e := fun e' hm hc =>
        huniq e' (List.mem_cons_of_mem e₀ hm) hc
      simpa [getClientDebt, h] using ih hmem' huniq'

/-- Closed witness for `c9_client_debt`. -/
theorem c9_client_debt_witness :
    getClientDebt ⟨1, 2, 3⟩ [⟨⟨1, 2, 3⟩, -5⟩] =
      .okJson (owedByClient (-5)) ∧
    (0 ≤ owedByClient (-5) ↔ (-5 : Int) ≤ 0) ∧
    queryExitDebtsConsume ⟨9, 9, 9⟩ (owedByClient (-5)) =
      if 0 ≤ owedByClient (-5) then
        some (⟨9, 9, 9⟩, owedByClient (-5))
      else none :=
  c9_client_debt [⟨⟨1, 2, 3⟩, -5⟩] ⟨1, 2, 3⟩ ⟨9, 9, 9⟩ ⟨⟨1, 2, 3⟩, -5⟩
    (by decide) (by decide) (by decide)

/-! ### `get_port` lemmas -/

theorem getD_mem_of_lt : ∀ (l : List Nat) (n : Nat), n < l.length →
    l.getD n 0 ∈ l
  | a :: _, 0, _ => List.mem_cons_self a _
  | a :: l, n + 1, h =>
      List.mem_cons_of_mem a (getD_mem_of_lt l n (Nat.lt_of_succ_lt_succ h))

theorem perm_getD_eraseIdx : ∀ (l : List Nat) (n : Nat), n < l.length →
    List.Perm l (l.getD n 0 :: l.eraseIdx n)
  | _ :: _, 0, _ => List.Perm.refl _
  | a :: l, n + 1, h => by
      have ih := perm_getD_eraseIdx l n (Nat.lt_of_succ_lt_succ h)
      show List.Perm (a :: l) (l.getD n 0 :: a :: l.eraseIdx n)
      exact (ih.cons a).trans (List.Perm.swap _ _ _)

/-- A successful `get_port` draw comes from the pool, is verified free
against the OS, and the pool shrinks by exactly that port. -/
theorem getPortAux_found_spec (used : List Nat) (rng : Nat → Nat) :
    ∀ budget attempt pool p pool',
      getPortAux (some used) rng attempt budget pool = .found p pool' →
      p ∈ pool ∧ p ∉ used ∧ List.Perm pool (p :: pool') := by
  intro budget
  induction budget with
  | zero =>
    rintro attempt (_ | ⟨q, rest⟩) p pool' h
    · simp [getPortAux] at h
    · rw [getPortAux] at h
      have hlt : rng attempt % (q :: rest).length < (q :: rest).length :=
        Nat.mod_lt _ (by simp)
      by_cases hm : (q :: rest).getD (rng attempt % (q :: rest).length) 0 ∈ used
      · rw [if_pos hm] at h
        cases h
      · rw [if_neg hm] at h
        cases h
        exact ⟨getD_mem_of_lt _ _ hlt, hm, perm_getD_eraseIdx _ _ hlt⟩
  | succ b ih =>
    rintro attempt (_ | ⟨q, rest⟩) p pool' h
    · simp [getPortAux] at h
    · rw [getPortAux] at h
      have hlt : rng attempt % (q :: rest).length < (q :: rest).length :=
        Nat.mod_lt _ (by simp)
      by_cases hm : (q :: rest).getD (rng attempt % (q :: rest).length) 0 ∈ used
      · rw [if_pos hm] at h
        obtain ⟨h1, h2, h3⟩ := ih (attempt + 1) _ p pool' h
        refine ⟨?_, h2, ?_⟩
        · rcases List.mem_append.mp h1 with h1 | h1
          · exact List.eraseIdx_subset _ _ h1
          · rw [List.mem_singleton] at h1
            subst h1
            exact getD_mem_of_lt _ _ hlt
        · exact ((perm_getD_eraseIdx _ _ hlt).trans
            (List.perm_append_singleton _ _).symm).trans h3
      · rw [if_neg hm] at h
        cases h
        exact ⟨getD_mem_of_lt _ _ hlt, hm, perm_getD_eraseIdx _ _ hlt⟩

/-- When every port of the (nonempty) pool is in use according to the OS,
`get_port` exhausts its retries and panics. -/
theorem getPortAux_all_used (used : List Nat) (rng : Nat → Nat) :
    ∀ budget attempt pool, pool ≠ [] → (∀ q ∈ pool, q ∈ used) →
      getPortAux (some used) rng attempt budget pool = .panicked := by
  intro budget
  induction budget with
  | zero =>
    rintro attempt (_ | ⟨q, rest⟩) hne hall
    · exact absurd rfl hne
    · rw [getPortAux]
      have hlt : rng attempt % (q :: rest).length < (q :: rest).length :=
        Nat.mod_lt _ (by simp)
      rw [if_pos (hall _ (getD_mem_of_lt _ _ hlt))]
  | succ b ih =>
    rintro attempt (_ | ⟨q, rest⟩) hne hall
    · exact absurd rfl hne
    · rw [getPortAux]
      have hlt : rng attempt % (q :: rest).length < (q :: rest).length :=
        Nat.mod_lt _ (by simp)
      rw [if_pos (hall _ (getD_mem_of_lt _ _ hlt))]
      refine ih (attempt + 1) _ (by simp) ?_
      intro x hx
      rcases List.mem_append.mp hx with hx | hx
      · exact hall _ (List.eraseIdx_subset _ _ hx)
      · rw [List.mem_singleton] at hx
        subst hx
        exact hall _ (getD_mem_of_lt _ _ hlt)

/-- C3 counterexample: with a nonempty pool whose every port the OS
reports in use, `get_port` does not fail with a port-exhaustion error
after its 10 retries — it `panic!`s (modelled by `.panicked`),
terminating the process rather than aborting one neighbor inquiry. -/
theorem c3_counterexample :
    getPort (some [65533, 65534]) (fun _ => 0) [65533, 65534] =
      .panicked := by decide

/-- C3 amended: `get_port` returns a port only after `used_ports()`
confirms it free, and any such port comes from the pool; when the OS
reports every drawn port as in use the bounded retries end in a `panic!`
(process death), not an error; the `None` return that aborts only the
single neighbor inquiry arises instead when the `used_ports()` query
itself fails. -/
theorem c3_get_port (used : List Nat) (rng : Nat → Nat) (pool : List Nat) :
    (∀ p pool', getPort (some used) rng pool = .found p pool' →
      p ∈ pool ∧ p ∉ used ∧ List.Perm pool (p :: pool')) ∧
    (pool ≠ [] → (∀ q ∈ pool, q ∈ used) →
      getPort (some used) rng pool = .panicked) ∧
    (pool ≠ [] → ∃ pool', getPort none rng pool = .osCheckFailed pool') := by
  refine ⟨fun p pool' h => getPortAux_found_spec used rng 10 0 pool p pool' h,
    fun hne hall => getPortAux_all_used used rng 10 0 pool hne hall, ?_⟩
  intro hne
  match pool, hne with
  | q :: rest, _ =>
      exact ⟨_, by rw [getPort, getPortAux]⟩

/-- Closed witness for `c3_get_port`. -/
theorem c3_get_port_witness :
    (65533 ∈ [65533, 65534] ∧ 65533 ∉ [65530] ∧
      List.Perm [65533, 65534] (65533 :: [65534])) ∧
    getPort (some [65533]) (fun _ => 0) [65533] = .panicked ∧
    ∃ pool', getPort none (fun _ => 0) [65533] = .osCheckFailed pool' :=
  ⟨(c3_get_port [65530] (fun _ => 0) [65533, 65534]).1 65533 [65534]
      (by decide),
   (c3_get_port [65533] (fun _ => 0) [65533]).2.1 (by decide) (by decide),
   (c3_get_port [65533] (fun _ => 0) [65533]).2.2 (by decide)⟩

/-! ### `TriggerGC` lemmas -/

theorem gcGood_cons (now T : Nat) (hd : Identity × List Tunnel)
    (tl : List (Identity × List Tunnel)) :
    gcGood now T (hd :: tl) =
      if (hd.2.filter fun t => decide (now - t.last_contact < T)).isEmpty
      then gcGood now T tl
      else (hd.1, hd.2.filter fun t => decide (now - t.last_contact < T)) ::
        gcGood now T tl := by
  by_cases he : (hd.2.filter fun t => decide (now - t.last_contact < T)).isEmpty
  · rw [if_pos he]
    simp only [gcGood, List.filterMap_cons]
    rw [if_pos he]
  · rw [if_neg he]
    simp only [gcGood, List.filterMap_cons]
    rw [if_neg he]

theorem gcGood_mem_fresh (now T : Nat) :
    ∀ (l : List (Identity × List Tunnel)) (id : Identity) (ts : List Tunnel),
      alGet (gcGood now T l) id = some ts →
      ∀ t ∈ ts, now - t.last_contact < T := by
  intro l
  induction l with
  | nil =>
    intro id ts h
    simp [gcGood] at h
  | cons hd tl ih =>
    intro id ts h t ht
    rw [gcGood_cons] at h
    by_cases he : (hd.2.filter fun t => decide (now - t.last_contact < T)).isEmpty
    · rw [if_pos he] at h
      exact ih id ts h t ht
    · rw [if_neg he, alGet_cons] at h
      by_cases hk : hd.1 = id
      · rw [if_pos hk] at h
        cases h
        simpa using (List.mem_filter.mp ht).2
      · rw [if_neg hk] at h
        exact ih id ts h t ht

theorem alGet_gcGood_not_mem (now T : Nat) :
    ∀ (l : List (Identity × List Tunnel)) (id : Identity),
      id ∉ l.map Prod.fst → alGet (gcGood now T l) id = none := by
  intro l
  induction l with
  | nil =>
    intro id _
    simp [gcGood]
  | cons hd tl ih =>
    intro id hid
    have hk : hd.1 ≠ id := fun h => hid (by simp [h])
    have htl : id ∉ tl.map Prod.fst := fun h => hid (by simp [h])
    rw [gcGood_cons]
    by_cases he : (hd.2.filter fun t => decide (now - t.last_contact < T)).isEmpty
    · rw [if_pos he]
      exact ih id htl
    · rw [if_neg he, alGet_cons, if_neg hk]
      exact ih id htl

theorem alGet_gcGood (now T : Nat) :
    ∀ (l : List (Identity × List Tunnel)), (l.map Prod.fst).Nodup →
      ∀ (id : Identity) (ts : List Tunnel), alGet l id = some ts →
      alGet (gcGood now T l) id =
        if (ts.filter fun t => decide (now - t.last_contact < T)).isEmpty
        then none
        else some (ts.filter fun t => decide (now - t.last_contact < T)) := by
  intro l
  induction l with
  | nil =>
    intro _ id ts h
    simp at h
  | cons hd tl ih =>
    intro hnd id ts h
    rw [List.map_cons, List.nodup_cons] at hnd
    rw [alGet_cons] at h
    rw [gcGood_cons]
    by_cases hk : hd.1 = id
    · rw [if_pos hk] at h
      cases h
      by_cases he : (hd.2.filter fun t => decide (now - t.last_contact < T)).isEmpty
      · rw [if_pos he, if_pos he]
        exact alGet_gcGood_not_mem now T tl id (hk ▸ hnd.1)
      · rw [if_neg he, if_neg he, alGet_cons, if_pos hk]
    · rw [if_neg hk] at h
      by_cases he : (hd.2.filter fun t => decide (now - t.last_contact < T)).isEmpty
      · rw [if_pos he]
        exact ih hnd.2 id ts h
      · rw [if_neg he, alGet_cons, if_neg hk]
        exact ih hnd.2 id ts h

theorem gcProcess_trace_append (delOk : String → Bool) :
    ∀ (l : List Tunnel) (ports : List Nat) (evs : List TMEvent),
      ∃ rest, (gcProcess delOk l ports evs).2.1 = evs ++ rest := by
  intro l
  induction l with
  | nil =>
    intro ports evs
    exact ⟨[], by simp [gcProcess]⟩
  | cons t rest ih =>
    intro ports evs
    simp only [gcProcess]
    by_cases hd : delOk t.iface_name = true
    · rw [if_pos hd]
      obtain ⟨r, hr⟩ := ih (ports ++ [t.listen_port])
        (evs ++ [.unmonitorCall t.iface_name, .delInterfaceCall t.iface_name]
          ++ [.pushPort t.listen_port])
      exact ⟨_, by rw [hr, List.append_assoc, List.append_assoc]⟩
    · rw [if_neg hd]
      exact ⟨_, rfl⟩

/-- C5: after `TriggerGC(T)` at time `now`, no tunnel with
`now - last_contact ≥ T` remains in storage; each surviving identity
keeps exactly its fresh tunnels (identities with none are dropped); and
the storage map is replaced (`storageSet`, the first trace event) before
any `unmonitor` or `del_interface` call is made. -/
theorem c5_trigger_gc (now T : Nat) (delOk : String → Bool) (st : TMState)
    (hkeys : (st.tunnels.map Prod.fst).Nodup) :
    (∀ id ts, alGet (triggerGC now T delOk st).1.tunnels id = some ts →
        ∀ t ∈ ts, now - t.last_contact < T) ∧
    (∀ id ts, alGet st.tunnels id = some ts →
        alGet (triggerGC now T delOk st).1.tunnels id =
          if (ts.filter fun t => decide (now - t.last_contact < T)).isEmpty
          then none
          else some (ts.filter fun t => decide (now - t.last_contact < T))) ∧
    (triggerGC now T delOk st).2.1.head? = some .storageSet := by
  have htun : (triggerGC now T delOk st).1.tunnels = gcGood now T st.tunnels := by
    simp [triggerGC]
  refine ⟨?_, ?_, ?_⟩
  · intro id ts h
    rw [htun] at h
    exact gcGood_mem_fresh now T st.tunnels id ts h
  · intro id ts h
    rw [htun]
    exact alGet_gcGood now T st.tunnels hkeys id ts h
  · obtain ⟨rest, hr⟩ := gcProcess_trace_append delOk
      (gcTimedOut now T st.tunnels) st.free_ports [TMEvent.storageSet]
    have hev : (triggerGC now T delOk st).2.1 =
        [TMEvent.storageSet] ++ rest := by
      simpa [triggerGC] using hr
    rw [hev]
    rfl

/-- Closed witness for `c5_trigger_gc`. -/
theorem c5_trigger_gc_witness :
    (triggerGC 10 2 (fun _ => true)
        ⟨[], [(⟨1, 1, 1⟩,
          [Tunnel.mk' 7 "wg0" 60000 3 ⟨⟨1, 1, 1⟩, 0, none⟩ 0])]⟩).2.1.head? =
      some .storageSet :=
  (c5_trigger_gc 10 2 (fun _ => true)
    ⟨[], [(⟨1, 1, 1⟩, [Tunnel.mk' 7 "wg0" 60000 3 ⟨⟨1, 1, 1⟩, 0, none⟩ 0])]⟩
    (by decide)).2.2

/-! ### `open_tunnel` lemmas -/

theorem haveTunnelByIfidx_of_mem (ifidx : Nat) (ts : List Tunnel)
    (T : Tunnel) (hmem : T ∈ ts) (h : T.listen_ifidx = ifidx) :
    haveTunnelByIfidx ifidx ts = true := by
  rw [haveTunnelByIfidx, List.any_eq_true]
  exact ⟨T, hmem, by simp [h]⟩

theorem haveTunnelByIp_of_mem (ip : Nat) (ts : List Tunnel)
    (T : Tunnel) (hmem : T ∈ ts) (h : T.ip = ip) :
    haveTunnelByIp ip ts = true := by
  rw [haveTunnelByIp, List.any_eq_true]
  exact ⟨T, hmem, by simp [h]⟩

theorem getTunnelByIfidx_bump (ifidx ip now : Nat) (T : Tunnel)
    (hifidx : T.listen_ifidx = ifidx) (hip : T.ip = ip) :
    ∀ ts : List Tunnel, T ∈ ts →
      (∀ t ∈ ts, t.listen_ifidx = ifidx → t = T) →
      getTunnelByIfidx ifidx (ts.map fun t =>
          if t.listen_ifidx = ifidx ∧ t.ip = ip then
            { t with last_contact := now }
          else t) =
        some { T with last_contact := now } := by
  intro ts
  induction ts with
  | nil =>
    intro hmem
    exact absurd hmem (List.not_mem_nil T)
  | cons t rest ih =>
    intro hmem huniq
    rw [List.map_cons]
    by_cases hc : t.listen_ifidx = ifidx ∧ t.ip = ip
    · have ht : t = T := huniq t (List.mem_cons_self t rest) hc.1
      subst ht
      rw [if_pos hc, getTunnelByIfidx, if_pos (by simpa using hc.1)]
    · have htT : t ≠ T := fun h => hc (h ▸ ⟨hifidx, hip⟩)
      have hmem' : T ∈ rest := by
        rcases List.mem_cons.mp hmem with h | h
        · exact absurd h.symm htT
        · exact h
      rw [if_neg hc, getTunnelByIfidx,
        if_neg (by simpa using fun h => hc ⟨h, (huniq t (List.mem_cons_self t rest) h) ▸ hip⟩)]
      exact ih hmem' fun t' ht' h' => huniq t' (List.mem_cons_of_mem t ht') h'

theorem delTunnel_bump (ifidx ip now : Nat) (T : Tunnel)
    (hifidx : T.listen_ifidx = ifidx) (hip : T.ip = ip) :
    ∀ ts : List Tunnel, (∀ t ∈ ts, t.listen_ifidx = ifidx → t = T) →
      delTunnel { T with last_contact := now }
        (ts.map fun t =>
          if t.listen_ifidx = ifidx ∧ t.ip = ip then
            { t with last_contact := now }
          else t) =
      ts.filter fun t => decide (t ≠ T) := by
  intro ts
  induction ts with
  | nil =>
    intro
    rfl
  | cons t rest ih =>
    intro huniq
    have ihr := ih fun t' ht' h' => huniq t' (List.mem_cons_of_mem t ht') h'
    rw [List.map_cons]
    by_cases hc : t.listen_ifidx = ifidx ∧ t.ip = ip
    · have ht : t = T := huniq t (List.mem_cons_self t rest) hc.1
      subst ht
      rw [if_pos hc]
      simp only [delTunnel, List.filter_cons] at ihr ⊢
      simpa using ihr
    · have htT : t ≠ T := fun h => hc (h ▸ ⟨hifidx, hip⟩)
      have hne : t ≠ { T with last_contact := now } := by
        intro h
        exact hc (by rw [h]; exact ⟨hifidx, hip⟩)
      rw [if_neg hc]
      simp only [delTunnel, List.filter_cons] at ihr ⊢
      simp only [hne, htT, decide_not, decide_eq_true_eq, if_true,
        decide_eq_false_iff_not, not_false_iff]
      simpa [hne, htT] using ihr

theorem alGet_eq_none_of_not_mem {β : Type} (id : Identity) :
    ∀ l : List (Identity × β), id ∉ l.map Prod.fst → alGet l id = none := by
  intro l
  induction l with
  | nil => intro; rfl
  | cons hd tl ih =>
    intro h
    rw [alGet_cons, if_neg (fun he => h (by simp [he]))]
    exact ih fun he => h (by simp [he])

theorem map_fst_alModify {β : Type} (k : Identity) (f : β → β) :
    ∀ l : List (Identity × β), (alModify l k f).map Prod.fst = l.map Prod.fst := by
  intro l
  induction l with
  | nil => rfl
  | cons hd tl ih =>
    obtain ⟨k₀, v⟩ := hd
    by_cases h : k₀ = k
    · simp [alModify, h]
    · simp [alModify, h, ih]

theorem alGet_alRemove_self {β : Type} (k : Identity) :
    ∀ l : List (Identity × β), (l.map Prod.fst).Nodup →
      alGet (alRemove l k) k = none := by
  intro l
  induction l with
  | nil => intro; rfl
  | cons hd tl ih =>
    intro hnd
    rw [List.map_cons, List.nodup_cons] at hnd
    obtain ⟨k₀, v⟩ := hd
    by_cases h : k₀ = k
    · rw [alRemove, if_pos h]
      exact alGet_eq_none_of_not_mem k tl (h ▸ hnd.1)
    · rw [alRemove, if_neg h, alGet_cons, if_neg h]
      exact ih hnd.2

/-- C6: when storage already holds the (unique) tunnel T matching the
peer's `(ifidx, ip)` for `their_localid.global` and the peer asserts it
has a tunnel (`Some(true)` or `None`), `open_tunnel` bumps T's
`last_contact` to now, pushes the speculative port back into the pool,
makes no kernel or Babel call, and returns `(T, true)`. -/
theorem c6_open_tunnel_reuse (now : Nat) (freshIface : String)
    (openOk : Bool) (lid : LocalIdentity) (peer : Peer) (our_port : Nat)
    (st : TMState) (ts : List Tunnel) (T : Tunnel)
    (hget : alGet st.tunnels lid.global = some ts)
    (hmem : T ∈ ts) (hifidx : T.listen_ifidx = peer.ifidx)
    (hip : T.ip = peer.ip)
    (huniq : ∀ t ∈ ts, t.listen_ifidx = peer.ifidx → t = T)
    (hht : lid.have_tunnel = some true ∨ lid.have_tunnel = none) :
    openTunnel now freshIface openOk lid peer our_port st =
      .ok ({ free_ports := st.free_ports ++ [our_port]
             tunnels := alModify st.tunnels lid.global fun l =>
               l.map fun t =>
                 if t.listen_ifidx = peer.ifidx ∧ t.ip = peer.ip then
                   { t with last_contact := now }
                 else t },
        { T with last_contact := now }, true, []) := by
  have hthey : lid.have_tunnel.getD true = true := by
    rcases hht with h | h <;> rw [h] <;> rfl
  have hmod : alGet (alModify st.tunnels lid.global fun l =>
      l.map fun t =>
        if t.listen_ifidx = peer.ifidx ∧ t.ip = peer.ip then
          { t with last_contact := now }
        else t) lid.global =
      some (ts.map fun t =>
        if t.listen_ifidx = peer.ifidx ∧ t.ip = peer.ip then
          { t with last_contact := now }
        else t) := by
    rw [alGet_alModify_self, hget]
    rfl
  rw [openTunnel]
  simp only [hget, hthey,
    haveTunnelByIfidx_of_mem peer.ifidx ts T hmem hifidx,
    haveTunnelByIp_of_mem peer.ip ts T hmem hip,
    Bool.and_self, if_true, hmod,
    getTunnelByIfidx_bump peer.ifidx peer.ip now T hifidx hip ts hmem huniq]

/-- Closed witness for `c6_open_tunnel_reuse`. -/
theorem c6_open_tunnel_reuse_witness :
    openTunnel 5 "wg1" true ⟨⟨1, 1, 1⟩, 700, some true⟩ ⟨7, 800, 3⟩ 60099
        ⟨[60001], [(⟨1, 1, 1⟩,
          [Tunnel.mk' 7 "wg0" 60000 3 ⟨⟨1, 1, 1⟩, 700, some true⟩ 0])]⟩ =
      .ok ({ free_ports := [60001] ++ [60099]
             tunnels := alModify
               [(⟨1, 1, 1⟩,
                 [Tunnel.mk' 7 "wg0" 60000 3 ⟨⟨1, 1, 1⟩, 700, some true⟩ 0])]
               (⟨1, 1, 1⟩ : Identity) fun l =>
               l.map fun t =>
                 if t.listen_ifidx = 3 ∧ t.ip = 7 then
                   { t with last_contact := 5 }
                 else t },
        { Tunnel.mk' 7 "wg0" 60000 3 ⟨⟨1, 1, 1⟩, 700, some true⟩ 0 with
            last_contact := 5 }, true, []) :=
  c6_open_tunnel_reuse 5 "wg1" true ⟨⟨1, 1, 1⟩, 700, some true⟩ ⟨7, 800, 3⟩
    60099
    ⟨[60001], [(⟨1, 1, 1⟩,
      [Tunnel.mk' 7 "wg0" 60000 3 ⟨⟨1, 1, 1⟩, 700, some true⟩ 0])]⟩
    [Tunnel.mk' 7 "wg0" 60000 3 ⟨⟨1, 1, 1⟩, 700, some true⟩ 0]
    (Tunnel.mk' 7 "wg0" 60000 3 ⟨⟨1, 1, 1⟩, 700, some true⟩ 0)
    (by decide) (by decide) (by decide) (by decide) (by decide)
    (Or.inl rfl)

/-- C7: when storage holds the (unique) tunnel T matching the peer's
`(ifidx, ip)` for `their_localid.global` but the peer asserts
`have_tunnel = Some(false)`, `open_tunnel` removes T, calls
`del_interface(T.iface_name)` exactly once, returns T's `listen_port` to
the pool, then creates a fresh tunnel (new kernel interface name, `open`,
`set_codel_shaping`, `monitor`), inserts it under the same identity and
returns it with flag `true`. -/
theorem c7_open_tunnel_asymmetric (now : Nat) (freshIface : String)
    (lid : LocalIdentity) (peer : Peer) (our_port : Nat)
    (st : TMState) (ts : List Tunnel) (T : Tunnel)
    (hkeys : (st.tunnels.map Prod.fst).Nodup)
    (hget : alGet st.tunnels lid.global = some ts)
    (hmem : T ∈ ts) (hifidx : T.listen_ifidx = peer.ifidx)
    (hip : T.ip = peer.ip)
    (huniq : ∀ t ∈ ts, t.listen_ifidx = peer.ifidx → t = T)
    (hht : lid.have_tunnel = some false) :
    ∃ st', openTunnel now freshIface true lid peer our_port st =
        .ok (st', Tunnel.mk' peer.ip freshIface our_port peer.ifidx lid now,
          true,
          [.delInterfaceCall T.iface_name, .pushPort T.listen_port,
           .openTunnelCall freshIface our_port,
           .setCodelShapingCall freshIface, .monitorCall freshIface]) ∧
      st'.free_ports = st.free_ports ++ [T.listen_port] ∧
      alGet st'.tunnels lid.global =
        some ((ts.filter fun t => decide (t ≠ T)) ++
          [Tunnel.mk' peer.ip freshIface our_port peer.ifidx lid now]) := by
  have hthey : lid.have_tunnel.getD true = false := by
    rw [hht]
    rfl
  have hmapget : alGet (alModify st.tunnels lid.global fun l =>
      l.map fun t =>
        if t.listen_ifidx = peer.ifidx ∧ t.ip = peer.ip then
          { t with last_contact := now }
        else t) lid.global =
      some (ts.map fun t =>
        if t.listen_ifidx = peer.ifidx ∧ t.ip = peer.ip then
          { t with last_contact := now }
        else t) := by
    rw [alGet_alModify_self, hget]
    rfl
  have hkeys₁ : ((alModify st.tunnels lid.global fun l =>
      l.map fun t =>
        if t.listen_ifidx = peer.ifidx ∧ t.ip = peer.ip then
          { t with last_contact := now }
        else t).map Prod.fst).Nodup := by
    rw [map_fst_alModify]
    exact hkeys
  rw [openTunnel]
  simp only [hget, hthey,
    haveTunnelByIfidx_of_mem peer.ifidx ts T hmem hifidx,
    haveTunnelByIp_of_mem peer.ip ts T hmem hip,
    Bool.and_self, if_true, Bool.false_eq_true, if_false, hmapget,
    getTunnelByIfidx_bump peer.ifidx peer.ip now T hifidx hip ts hmem huniq,
    delTunnel_bump peer.ifidx peer.ip now T hifidx hip ts huniq]
  by_cases hlen : (ts.filter fun t => decide (t ≠ T)).length = 0
  · rw [if_pos hlen]
    have hfil : (ts.filter fun t => decide (t ≠ T)) = [] :=
      List.length_eq_zero.mp hlen
    have hnone : alGet (alRemove (alModify
        (alModify st.tunnels lid.global fun l =>
          l.map fun t =>
            if t.listen_ifidx = peer.ifidx ∧ t.ip = peer.ip then
              { t with last_contact := now }
            else t) lid.global fun _ =>
          ts.filter fun t => decide (t ≠ T)) lid.global) lid.global = none := by
      refine alGet_alRemove_self lid.global _ ?_
      rw [map_fst_alModify]
      exact hkeys₁
    have hglob : (Tunnel.mk' peer.ip freshIface our_port peer.ifidx
        lid now).neigh_id.global = lid.global := rfl
    simp only [createNewTunnel, if_pos rfl, insertTunnel, hglob, hnone]
    refine ⟨_, rfl, rfl, ?_⟩
    rw [alGet_alInsert_self, hfil]
    rfl
  · rw [if_neg hlen]
    have hsome : alGet (alModify
        (alModify st.tunnels lid.global fun l =>
          l.map fun t =>
            if t.listen_ifidx = peer.ifidx ∧ t.ip = peer.ip then
              { t with last_contact := now }
            else t) lid.global fun _ =>
          ts.filter fun t => decide (t ≠ T)) lid.global =
        some (ts.filter fun t => decide (t ≠ T)) := by
      rw [alGet_alModify_self, hmapget]
      rfl
    have hglob : (Tunnel.mk' peer.ip freshIface our_port peer.ifidx
        lid now).neigh_id.global = lid.global := rfl
    simp only [createNewTunnel, if_pos rfl, insertTunnel, hglob, hsome]
    refine ⟨_, rfl, rfl, ?_⟩
    rw [alGet_alModify_self, hsome]
    rfl

/-- Closed witness for `c7_open_tunnel_asymmetric`. -/
theorem c7_open_tunnel_asymmetric_witness :
    ∃ st', openTunnel 5 "wg1" true ⟨⟨1, 1, 1⟩, 700, some false⟩ ⟨7, 800, 3⟩
        60099
        ⟨[60001], [(⟨1, 1, 1⟩,
          [Tunnel.mk' 7 "wg0" 60000 3 ⟨⟨1, 1, 1⟩, 700, some true⟩ 0])]⟩ =
        .ok (st',
          Tunnel.mk' 7 "wg1" 60099 3 ⟨⟨1, 1, 1⟩, 700, some false⟩ 5, true,
          [.delInterfaceCall "wg0", .pushPort 60000,
           .openTunnelCall "wg1" 60099, .setCodelShapingCall "wg1",
           .monitorCall "wg1"]) ∧
      st'.free_ports = [60001] ++ [60000] ∧
      alGet st'.tunnels ⟨1, 1, 1⟩ =
        some (([Tunnel.mk' 7 "wg0" 60000 3 ⟨⟨1, 1, 1⟩, 700, some true⟩ 0].filter
            fun t => decide
              (t ≠ Tunnel.mk' 7 "wg0" 60000 3 ⟨⟨1, 1, 1⟩, 700, some true⟩ 0)) ++
          [Tunnel.mk' 7 "wg1" 60099 3 ⟨⟨1, 1, 1⟩, 700, some false⟩ 5]) :=
  c7_open_tunnel_asymmetric 5 "wg1" ⟨⟨1, 1, 1⟩, 700, some false⟩ ⟨7, 800, 3⟩
    60099
    ⟨[60001], [(⟨1, 1, 1⟩,
      [Tunnel.mk' 7 "wg0" 60000 3 ⟨⟨1, 1, 1⟩, 700, some true⟩ 0])]⟩
    [Tunnel.mk' 7 "wg0" 60000 3 ⟨⟨1, 1, 1⟩, 700, some true⟩ 0]
    (Tunnel.mk' 7 "wg0" 60000 3 ⟨⟨1, 1, 1⟩, 700, some true⟩ 0)
    (by decide) (by decide) (by decide) (by decide) (by decide) (by decide)
    rfl

/-! ### `tunnel_state_change` / bandwidth-limit lemmas -/

theorem applyActionAll_payment_events (a : TunnelAction)
    (ha : a = .PaidOnTime ∨ a = .PaymentOverdue) :
    ∀ ts : List Tunnel, (applyActionAll a ts).2.2 = [] := by
  intro ts
  induction ts with
  | nil => rfl
  | cons t rest ih =>
    have hev : (applyTunnelAction a t).2.2 = [] := by
      rcases ha with rfl | rfl <;>
        · rw [applyTunnelAction]
          cases t.state.payment_state <;> rfl
    simp only [applyActionAll, hev, ih]
    rfl

theorem applyActionAll_membership_flag (a : TunnelAction)
    (ha : a = .MembershipConfirmed ∨ a = .MembershipExpired) :
    ∀ ts : List Tunnel, (applyActionAll a ts).2.1 = false := by
  intro ts
  induction ts with
  | nil => rfl
  | cons t rest ih =>
    have hfl : (applyTunnelAction a t).2.1 = false := by
      rcases ha with rfl | rfl <;>
        · rw [applyTunnelAction]
          cases t.state.registration_state <;> rfl
    simp only [applyActionAll, hfl, ih]
    rfl

theorem applyActionAll_events_of_flag (a : TunnelAction)
    (ts : List Tunnel) (h : (applyActionAll a ts).2.1 = true) :
    (applyActionAll a ts).2.2 = [] := by
  cases a with
  | MembershipConfirmed =>
      rw [applyActionAll_membership_flag _ (Or.inl rfl) ts] at h
      cases h
  | MembershipExpired =>
      rw [applyActionAll_membership_flag _ (Or.inr rfl) ts] at h
      cases h
  | PaidOnTime => exact applyActionAll_payment_events _ (Or.inl rfl) ts
  | PaymentOverdue => exact applyActionAll_payment_events _ (Or.inr rfl) ts

theorem bwLimitGo_mem_iface (bw : Nat) :
    ∀ (l : List Tunnel) (limits : String → Bool) (e : TMEvent),
      e ∈ (bwLimitGo bw l limits).2 →
      ∃ t, t ∈ l ∧ (e = TMEvent.setClasslessLimitCall t.iface_name bw ∨
        e = TMEvent.setCodelShapingCall t.iface_name) := by
  intro l
  induction l with
  | nil =>
    intro limits e h
    simp [bwLimitGo] at h
  | cons t rest ih =>
    intro limits e h
    rw [bwLimitGo] at h
    by_cases hov : t.state.payment_state = .Overdue
    · rw [if_pos hov] at h
      rcases List.mem_cons.mp h with rfl | h
      · exact ⟨t, List.mem_cons_self t rest, Or.inl rfl⟩
      · obtain ⟨t', ht', he⟩ := ih _ e h
        exact ⟨t', List.mem_cons_of_mem t ht', he⟩
    · rw [if_neg hov] at h
      by_cases hpl : t.state.payment_state = .Paid ∧ limits t.iface_name = true
      · rw [if_pos hpl] at h
        rcases List.mem_cons.mp h with rfl | h
        · exact ⟨t, List.mem_cons_self t rest, Or.inr rfl⟩
        · obtain ⟨t', ht', he⟩ := ih _ e h
          exact ⟨t', List.mem_cons_of_mem t ht', he⟩
      · rw [if_neg hpl] at h
        obtain ⟨t', ht', he⟩ := ih _ e h
        exact ⟨t', List.mem_cons_of_mem t ht', he⟩

theorem bwLimitGo_spec (bw : Nat) :
    ∀ (l : List Tunnel) (limits : String → Bool),
      ((l.map fun t => t.iface_name).Nodup) →
      ∀ t ∈ l,
        (t.state.payment_state = .Overdue →
          TMEvent.setClasslessLimitCall t.iface_name bw ∈
            (bwLimitGo bw l limits).2) ∧
        (t.state.payment_state = .Paid → limits t.iface_name = true →
          TMEvent.setCodelShapingCall t.iface_name ∈
            (bwLimitGo bw l limits).2) ∧
        (t.state.payment_state = .Paid → limits t.iface_name = false →
          (∀ bps, TMEvent.setClasslessLimitCall t.iface_name bps ∉
            (bwLimitGo bw l limits).2) ∧
          TMEvent.setCodelShapingCall t.iface_name ∉
            (bwLimitGo bw l limits).2) := by
  intro l
  induction l with
  | nil =>
    intro limits _ t ht
    exact absurd ht (List.not_mem_nil t)
  | cons h rest ih =>
    intro limits hnd t ht
    rw [List.map_cons, List.nodup_cons] at hnd
    have hne : ∀ t' ∈ rest, t'.iface_name ≠ h.iface_name := by
      intro t' ht' he
      exact hnd.1 (he ▸ List.mem_map_of_mem (fun t => t.iface_name) ht')
    have hnotin : ∀ (lim : String → Bool) (e : TMEvent),
        e ∈ (bwLimitGo bw rest lim).2 →
        (∀ bps, e ≠ TMEvent.setClasslessLimitCall h.iface_name bps) ∧
          e ≠ TMEvent.setCodelShapingCall h.iface_name := by
      intro lim e hmem
      obtain ⟨t', ht', he⟩ := bwLimitGo_mem_iface bw rest lim e hmem
      rcases he with rfl | rfl
      · refine ⟨fun bps hc => ?_, fun hc => TMEvent.noConfusion hc⟩
        exact hne t' ht' (by injection hc with h1 h2)
      · refine ⟨fun bps hc => TMEvent.noConfusion hc, fun hc => ?_⟩
        exact hne t' ht' (by injection hc with h1)
    rcases List.mem_cons.mp ht with rfl | htr
    · -- t is the head
      rw [bwLimitGo]
      by_cases hov : t.state.payment_state = .Overdue
      · rw [if_pos hov]
        refine ⟨fun _ => List.mem_cons_self _ _, ?_, ?_⟩
        · intro hp
          rw [hp] at hov
          cases hov
        · intro hp
          rw [hp] at hov
          cases hov
      · rw [if_neg hov]
        by_cases hpl : t.state.payment_state = .Paid ∧
            limits t.iface_name = true
        · rw [if_pos hpl]
          refine ⟨fun hov' => absurd hov' hov,
            fun _ _ => List.mem_cons_self _ _, ?_⟩
          intro _ hlim
          rw [hlim] at hpl
          exact absurd hpl.2 (by simp)
        · rw [if_neg hpl]
          refine ⟨fun hov' => absurd hov' hov, ?_, ?_⟩
          · intro hp hlim
            exact absurd ⟨hp, hlim⟩ hpl
          · intro _ _
            constructor
            · intro bps hc
              exact ((hnotin limits _ hc).1 bps) rfl
            · intro hc
              exact (hnotin limits _ hc).2 rfl
    · -- t is in the tail
      have htiface : t.iface_name ≠ h.iface_name := hne t htr
      rw [bwLimitGo]
      by_cases hov : h.state.payment_state = .Overdue
      · rw [if_pos hov]
        have := ih (fun i => if i = h.iface_name then true else limits i)
          hnd.2 t htr
        simp only [if_neg htiface] at this
        exact ⟨fun h1 => List.mem_cons_of_mem _ (this.1 h1),
          fun h1 h2 => List.mem_cons_of_mem _ (this.2.1 h1 h2),
          fun h1 h2 =>
            ⟨fun bps hc => by
              rcases List.mem_cons.mp hc with he | hc
              · exact htiface (by injection he with h1 h2)
              · exact (this.2.2 h1 h2).1 bps hc,
             fun hc => by
              rcases List.mem_cons.mp hc with he | hc
              · exact TMEvent.noConfusion he
              · exact (this.2.2 h1 h2).2 hc⟩⟩
      · rw [if_neg hov]
        by_cases hpl : h.state.payment_state = .Paid ∧
            limits h.iface_name = true
        · rw [if_pos hpl]
          have := ih (fun i => if i = h.iface_name then false else limits i)
            hnd.2 t htr
          simp only [if_neg htiface] at this
          exact ⟨fun h1 => List.mem_cons_of_mem _ (this.1 h1),
            fun h1 h2 => List.mem_cons_of_mem _ (this.2.1 h1 h2),
            fun h1 h2 =>
              ⟨fun bps hc => by
                rcases List.mem_cons.mp hc with he | hc
                · exact TMEvent.noConfusion he
                · exact (this.2.2 h1 h2).1 bps hc,
               fun hc => by
                rcases List.mem_cons.mp hc with he | hc
                · exact htiface (by injection he with h1)
                · exact (this.2.2 h1 h2).2 hc⟩⟩
        · rw [if_neg hpl]
          exact ih limits hnd.2 t htr

theorem countOverdue_pos (l : List (Identity × List Tunnel)) (t : Tunnel)
    (hmem : t ∈ (l.map Prod.snd).flatten)
    (hov : t.state.payment_state = .Overdue) : 0 < countOverdue l := by
  rw [countOverdue]
  exact List.length_pos.mpr
    (List.ne_nil_of_mem (List.mem_filter.mpr ⟨hmem, by simp [hov]⟩))

/-- C2 counterexample: three Paid tunnels under distinct identities with
`free_tier_throughput = 6_000_000`; two of them transition to Overdue in
one batch.  The bandwidth-limit update does not run once after the batch
with two `set_classless_limit(·, 3_000_000)` calls: it runs after *each*
payment transition, producing three calls — `("wg0", 6_000_000)` from the
first transition (k was still 1) and then `("wg0", 3_000_000)`,
`("wg1", 3_000_000)`. -/
theorem c2_counterexample :
    (handleTunnelStateChange 6000000
        [⟨⟨1, 1, 1⟩, .PaymentOverdue⟩, ⟨⟨2, 2, 2⟩, .PaymentOverdue⟩]
        [(⟨1, 1, 1⟩, [Tunnel.mk' 1 "wg0" 60000 1 ⟨⟨1, 1, 1⟩, 0, none⟩ 0]),
         (⟨2, 2, 2⟩, [Tunnel.mk' 2 "wg1" 60001 1 ⟨⟨2, 2, 2⟩, 0, none⟩ 0]),
         (⟨3, 3, 3⟩, [Tunnel.mk' 3 "wg2" 60002 1 ⟨⟨3, 3, 3⟩, 0, none⟩ 0])]
        (fun _ => false)).2.2 =
      [.setClasslessLimitCall "wg0" 6000000,
       .setClasslessLimitCall "wg0" 3000000,
       .setClasslessLimitCall "wg1" 3000000] ∧
    TMEvent.setClasslessLimitCall "wg0" 6000000 ∈
      (handleTunnelStateChange 6000000
        [⟨⟨1, 1, 1⟩, .PaymentOverdue⟩, ⟨⟨2, 2, 2⟩, .PaymentOverdue⟩]
        [(⟨1, 1, 1⟩, [Tunnel.mk' 1 "wg0" 60000 1 ⟨⟨1, 1, 1⟩, 0, none⟩ 0]),
         (⟨2, 2, 2⟩, [Tunnel.mk' 2 "wg1" 60001 1 ⟨⟨2, 2, 2⟩, 0, none⟩ 0]),
         (⟨3, 3, 3⟩, [Tunnel.mk' 3 "wg2" 60002 1 ⟨⟨3, 3, 3⟩, 0, none⟩ 0])]
        (fun _ => false)).2.2 := by
  constructor
  · rfl
  · rw [show (handleTunnelStateChange 6000000
        [⟨⟨1, 1, 1⟩, .PaymentOverdue⟩, ⟨⟨2, 2, 2⟩, .PaymentOverdue⟩]
        [(⟨1, 1, 1⟩, [Tunnel.mk' 1 "wg0" 60000 1 ⟨⟨1, 1, 1⟩, 0, none⟩ 0]),
         (⟨2, 2, 2⟩, [Tunnel.mk' 2 "wg1" 60001 1 ⟨⟨2, 2, 2⟩, 0, none⟩ 0]),
         (⟨3, 3, 3⟩, [Tunnel.mk' 3 "wg2" 60002 1 ⟨⟨3, 3, 3⟩, 0, none⟩ 0])]
        (fun _ => false)).2.2 =
      [.setClasslessLimitCall "wg0" 6000000,
       .setClasslessLimitCall "wg0" 3000000,
       .setClasslessLimitCall "wg1" 3000000] from rfl]
    exact List.mem_cons_self _ _

/-- C2 amended: the bandwidth-limit update runs immediately after each
`TunnelChange` that causes a payment transition (so a batch with several
transitions runs it several times).  At such a run, with
`k = countOverdue` of the post-transition storage, every Overdue tunnel
receives `set_classless_limit(iface, free_tier / k)` and every Paid
tunnel that currently has a limit receives `set_codel_shaping(iface)`;
a Paid tunnel without a limit receives no call. -/
theorem c2_bw_limit_per_change (free_tier : Nat) (c : TunnelChange)
    (tunnels : List (Identity × List Tunnel)) (limits : String → Bool)
    (ts : List Tunnel)
    (hget : alGet tunnels c.identity = some ts)
    (htrans : (applyActionAll c.action ts).2.1 = true)
    (hifaces : ((((alModify tunnels c.identity fun _ =>
        (applyActionAll c.action ts).1).map Prod.snd).flatten).map
        fun t => t.iface_name).Nodup) :
    (tunnelStateChange free_tier c tunnels limits).1 =
      alModify tunnels c.identity (fun _ => (applyActionAll c.action ts).1) ∧
    ∀ t ∈ ((alModify tunnels c.identity fun _ =>
        (applyActionAll c.action ts).1).map Prod.snd).flatten,
      (t.state.payment_state = .Overdue →
        0 < countOverdue (alModify tunnels c.identity fun _ =>
          (applyActionAll c.action ts).1) ∧
        TMEvent.setClasslessLimitCall t.iface_name
          (free_tier / countOverdue (alModify tunnels c.identity fun _ =>
            (applyActionAll c.action ts).1)) ∈
          (tunnelStateChange free_tier c tunnels limits).2.2) ∧
      (t.state.payment_state = .Paid → limits t.iface_name = true →
        TMEvent.setCodelShapingCall t.iface_name ∈
          (tunnelStateChange free_tier c tunnels limits).2.2) ∧
      (t.state.payment_state = .Paid → limits t.iface_name = false →
        (∀ bps, TMEvent.setClasslessLimitCall t.iface_name bps ∉
          (tunnelStateChange free_tier c tunnels limits).2.2) ∧
        TMEvent.setCodelShapingCall t.iface_name ∉
          (tunnelStateChange free_tier c tunnels limits).2.2) := by
  have hrun : tunnelStateChange free_tier c tunnels limits =
      (alModify tunnels c.identity (fun _ => (applyActionAll c.action ts).1),
       (tunnelBwLimitUpdate free_tier
         (alModify tunnels c.identity fun _ => (applyActionAll c.action ts).1)
         limits).1,
       (tunnelBwLimitUpdate free_tier
         (alModify tunnels c.identity fun _ => (applyActionAll c.action ts).1)
         limits).2) := by
    rw [tunnelStateChange, hget]
    simp only [if_pos htrans, applyActionAll_events_of_flag c.action ts htrans,
      List.nil_append]
  rw [hrun]
  refine ⟨rfl, ?_⟩
  intro t ht
  have hspec := bwLimitGo_spec
    (if 0 < countOverdue (alModify tunnels c.identity fun _ =>
        (applyActionAll c.action ts).1) then
      free_tier / countOverdue (alModify tunnels c.identity fun _ =>
        (applyActionAll c.action ts).1)
     else free_tier)
    (((alModify tunnels c.identity fun _ =>
      (applyActionAll c.action ts).1).map Prod.snd).flatten) limits hifaces t ht
  have hupd : tunnelBwLimitUpdate free_tier
      (alModify tunnels c.identity fun _ => (applyActionAll c.action ts).1)
      limits =
      bwLimitGo
        (if 0 < countOverdue (alModify tunnels c.identity fun _ =>
            (applyActionAll c.action ts).1) then
          free_tier / countOverdue (alModify tunnels c.identity fun _ =>
            (applyActionAll c.action ts).1)
         else free_tier)
        (((alModify tunnels c.identity fun _ =>
          (applyActionAll c.action ts).1).map Prod.snd).flatten) limits := by
    rw [tunnelBwLimitUpdate]
  rw [hupd]
  refine ⟨?_, hspec.2.1, hspec.2.2⟩
  intro hov
  have hpos := countOverdue_pos _ t ht hov
  refine ⟨hpos, ?_⟩
  have := hspec.1 hov
  rw [if_pos hpos] at this
  rw [if_pos hpos]
  exact this

/-- Closed witness for `c2_bw_limit_per_change`. -/
theorem c2_bw_limit_per_change_witness :
    TMEvent.setClasslessLimitCall "wg0" 6000000 ∈
      (tunnelStateChange 6000000 ⟨⟨1, 1, 1⟩, .PaymentOverdue⟩
        [(⟨1, 1, 1⟩, [Tunnel.mk' 1 "wg0" 60000 1 ⟨⟨1, 1, 1⟩, 0, none⟩ 0])]
        (fun _ => false)).2.2 := by
  have h := (c2_bw_limit_per_change 6000000 ⟨⟨1, 1, 1⟩, .PaymentOverdue⟩
    [(⟨1, 1, 1⟩, [Tunnel.mk' 1 "wg0" 60000 1 ⟨⟨1, 1, 1⟩, 0, none⟩ 0])]
    (fun _ => false)
    [Tunnel.mk' 1 "wg0" 60000 1 ⟨⟨1, 1, 1⟩, 0, none⟩ 0]
    (by decide) (by decide) (by decide)).2
    ({ Tunnel.mk' 1 "wg0" 60000 1 ⟨⟨1, 1, 1⟩, 0, none⟩ 0 with
        state := { payment_state := .Overdue,
                   registration_state := .Registered } })
    (by decide)
  simpa using (h.1 rfl).2

/-! ### Client traffic watcher -/

/-- The cursor pair actually used for differencing in a round: both reset
to `0` on counter regression, unchanged otherwise (the
`history.last_read_* = 0` assignments of `watch`). -/
def effCursors (history : ClientHistory) (counter : WgCounter) :
    ClientHistory :=
  if history.last_read_input > counter.download ∨
      history.last_read_output > counter.upload then
    (⟨0, 0⟩ : ClientHistory)
  else history

/-- C8 counterexample: with `exit_price = 2^32` and an upload delta of
`2^32` bytes, the `exit_price * output` term is computed in `u64` and
wraps to `0`, so `watch` reports `owes_exit = 0` instead of the exact
`2^64`, and — because the computed `owes_exit` is not positive — emits no
`UsageType::Client` usage record for the round. -/
theorem c8_counterexample :
    watchClient 100 ⟨1, 0, 0⟩ 4294967296 [⟨1, 128, true, true, 0, 0, 0⟩]
        ⟨0, 0⟩ ⟨0, 4294967296⟩ =
      .ok (⟨0, 4294967296⟩, 0, none) ∧
    (0 : Int) ≠ Int.ofNat 0 * (Int.ofNat 0 + Int.ofNat 4294967296) +
      Int.ofNat 4294967296 * Int.ofNat 4294967296 := by
  constructor
  · rfl
  · decide

/-- C8 amended: per round the client watcher resets both cursors on
counter regression before differencing (so the subtractions never
underflow), updates the cursors to the current readings, computes
`owes_exit = input * exit_dest_price + ((exit_price * output) mod 2^64)`
with `exit_dest_price = min(exit route price, max_fee) + exit_price`
(the second term in wrapping `u64` arithmetic), and emits a
`UsageType::Client` usage record only when `owes_exit > 0`. -/
theorem c8_client_watch (max_fee exit_price : Nat) (exit : Identity)
    (routes : List Route) (history : ClientHistory) (counter : WgCounter)
    (r : Route) (hroute : getInstalledRoute exit.mesh_ip routes = some r) :
    watchClient max_fee exit exit_price routes history counter =
      .ok (⟨counter.download, counter.upload⟩,
        Int.ofNat (counter.download -
            (effCursors history counter).last_read_input) *
          (Int.ofNat (min r.price max_fee) + Int.ofNat exit_price) +
          Int.ofNat ((exit_price * (counter.upload -
            (effCursors history counter).last_read_output)) %
              18446744073709551616),
        if Int.ofNat (counter.download -
              (effCursors history counter).last_read_input) *
            (Int.ofNat (min r.price max_fee) + Int.ofNat exit_price) +
            Int.ofNat ((exit_price * (counter.upload -
              (effCursors history counter).last_read_output)) %
                18446744073709551616) > 0 then
          some ⟨.Client,
            counter.upload - (effCursors history counter).last_read_output,
            counter.download - (effCursors history counter).last_read_input,
            (((Int.ofNat (min r.price max_fee) + Int.ofNat exit_price)) %
              4294967296).toNat⟩
        else none) ∧
    (effCursors history counter).last_read_input ≤ counter.download ∧
    (effCursors history counter).last_read_output ≤ counter.upload := by
  have hcp : (if r.price > max_fee then { r with price := max_fee }
      else r).price = min r.price max_fee := by
    by_cases h : r.price > max_fee <;> simp [h] <;> omega
  refine ⟨?_, ?_, ?_⟩
  · rw [watchClient, findExitRouteCapped, hroute]
    by_cases hreset : history.last_read_input > counter.download ∨
        history.last_read_output > counter.upload
    · simp only [effCursors, if_pos hreset, hcp]
    · simp only [effCursors, if_neg hreset, hcp]
  · rw [effCursors]
    by_cases hreset : history.last_read_input > counter.download ∨
        history.last_read_output > counter.upload
    · rw [if_pos hreset]
      exact Nat.zero_le _
    · rw [if_neg hreset]
      push_neg at hreset
      exact hreset.1
  · rw [effCursors]
    by_cases hreset : history.last_read_input > counter.download ∨
        history.last_read_output > counter.upload
    · rw [if_pos hreset]
      exact Nat.zero_le _
    · rw [if_neg hreset]
      push_neg at hreset
      exact hreset.2

/-- Closed witness for `c8_client_watch`. -/
theorem c8_client_watch_witness :
    watchClient 100 ⟨1, 0, 0⟩ 2 [⟨1, 128, true, true, 5, 0, 0⟩]
        ⟨3, 4⟩ ⟨10, 9⟩ =
      .ok (⟨10, 9⟩,
        Int.ofNat (10 - (effCursors ⟨3, 4⟩ ⟨10, 9⟩).last_read_input) *
          (Int.ofNat (min 5 100) + Int.ofNat 2) +
          Int.ofNat ((2 * (9 - (effCursors ⟨3, 4⟩ ⟨10, 9⟩).last_read_output)) %
            18446744073709551616),
        if Int.ofNat (10 - (effCursors ⟨3, 4⟩ ⟨10, 9⟩).last_read_input) *
            (Int.ofNat (min 5 100) + Int.ofNat 2) +
            Int.ofNat ((2 * (9 - (effCursors ⟨3, 4⟩ ⟨10, 9⟩).last_read_output)) %
              18446744073709551616) > 0 then
          some ⟨.Client, 9 - (effCursors ⟨3, 4⟩ ⟨10, 9⟩).last_read_output,
            10 - (effCursors ⟨3, 4⟩ ⟨10, 9⟩).last_read_input,
            ((Int.ofNat (min 5 100) + Int.ofNat 2) % 4294967296).toNat⟩
        else none) ∧
    (effCursors ⟨3, 4⟩ ⟨10, 9⟩).last_read_input ≤ 10 ∧
    (effCursors ⟨3, 4⟩ ⟨10, 9⟩).last_read_output ≤ 9 :=
  c8_client_watch 100 2 ⟨1, 0, 0⟩ [⟨1, 128, true, true, 5, 0, 0⟩]
    ⟨3, 4⟩ ⟨10, 9⟩ ⟨1, 128, true, true, 5, 0, 0⟩ (by decide)

/-! ### Port-pool accounting (C4)

The tunnel manager's externally reachable operations, together with an
accounting of *outstanding speculative ports* — ports drawn by `get_port`
that are neither in the pool nor attached to a stored tunnel (they ride
along inside in-flight Hellos until a `PortCallback` or an
`IdentityCallback`/`open_tunnel` claims them). -/

/-- All tunnels in storage, in iteration order. -/
def allTunnels (l : List (Identity × List Tunnel)) : List Tunnel :=
  (l.map Prod.snd).flatten

/-- The `listen_port`s of all stored tunnels. -/
def listenPorts (l : List (Identity × List Tunnel)) : List Nat :=
  (allTunnels l).map fun t => t.listen_port

/-- The port accounting invariant: the free pool, the stored tunnels'
listen ports and the outstanding speculative ports together form exactly
the interval `[wg_start_port, 65535)`, each port once. -/
def PoolInv (start : Nat) (st : TMState) (outstanding : List Nat) : Prop :=
  (st.free_ports : Multiset Nat) + ↑(listenPorts st.tunnels) +
      ↑outstanding =
    ↑(List.range' start (65535 - start))

/-- One externally reachable tunnel-manager operation, as a relation
between (state, outstanding speculative ports) pairs. -/
inductive TMStep : TMState → List Nat → TMState → List Nat → Prop where
  /-- A successful `get_port` draw (the start of a neighbor inquiry):
  the drawn port becomes outstanding. -/
  | allocPort (used : List Nat) (rng : Nat → Nat) (st : TMState)
      (outs : List Nat) (p : Nat) (pool' : List Nat)
      (h : getPort (some used) rng st.free_ports = .found p pool') :
      TMStep st outs ⟨pool', st.tunnels⟩ (p :: outs)
  /-- `Handler<PortCallback>`: a failed inquiry returns its port. -/
  | portCallback (st : TMState) (outs : List Nat) (p : Nat) (h : p ∈ outs) :
      TMStep st outs ⟨st.free_ports ++ [p], st.tunnels⟩ (outs.erase p)
  /-- `Handler<IdentityCallback>` with a pre-allocated port:
  `open_tunnel` either attaches the port or returns it. -/
  | identityCallback (now : Nat) (freshIface : String) (openOk : Bool)
      (lid : LocalIdentity) (peer : Peer) (port : Nat) (st : TMState)
      (outs : List Nat) (st' : TMState) (t : Tunnel) (b : Bool)
      (evs : List TMEvent) (hp : port ∈ outs)
      (h : openTunnel now freshIface openOk lid peer port st =
        .ok (st', t, b, evs)) :
      TMStep st outs st' (outs.erase port)
  /-- `Handler<TriggerGC>` with every `del_interface` succeeding. -/
  | gc (now T : Nat) (delOk : String → Bool) (st : TMState)
      (outs : List Nat) (hdel : ∀ i, delOk i = true) :
      TMStep st outs (triggerGC now T delOk st).1 outs

theorem allTunnels_cons (hd : Identity × List Tunnel)
    (tl : List (Identity × List Tunnel)) :
    allTunnels (hd :: tl) = hd.2 ++ allTunnels tl := by
  simp [allTunnels]

theorem listenPorts_alModify_map (k : Identity) (g : Tunnel → Tunnel)
    (hg : ∀ t, (g t).listen_port = t.listen_port) :
    ∀ l, listenPorts (alModify l k (List.map g)) = listenPorts l := by
  intro l
  induction l with
  | nil => rfl
  | cons hd tl ih =>
    obtain ⟨k₀, vs⟩ := hd
    by_cases h : k₀ = k
    · simp only [alModify, if_pos h, listenPorts, allTunnels_cons,
        List.map_append, List.map_map]
      congr 1
      exact List.map_congr_left fun t _ => hg t
    · simp only [alModify, if_neg h] at ih ⊢
      simp only [listenPorts, allTunnels_cons, List.map_append] at ih ⊢
      rw [ih]

theorem allTunnels_multiset_alModify (k : Identity)
    (f : List Tunnel → List Tunnel) :
    ∀ (l : List (Identity × List Tunnel)) (ts : List Tunnel),
      alGet l k = some ts →
      (↑(allTunnels (alModify l k f)) : Multiset Tunnel) + ↑ts =
        ↑(allTunnels l) + ↑(f ts) := by
  intro l
  induction l with
  | nil =>
    intro ts h
    simp at h
  | cons hd tl ih =>
    intro ts h
    obtain ⟨k₀, vs⟩ := hd
    rw [alGet_cons] at h
    by_cases hk : k₀ = k
    · rw [if_pos hk] at h
      cases h
      simp only [alModify, if_pos hk, allTunnels_cons]
      simp only [← Multiset.coe_add]
      abel
    · rw [if_neg hk] at h
      have := ih ts h
      simp only [alModify, if_neg hk, allTunnels_cons]
      simp only [← Multiset.coe_add] at this ⊢
      calc (↑vs + ↑(allTunnels (alModify tl k f)) : Multiset Tunnel) + ↑ts
          = ↑vs + (↑(allTunnels (alModify tl k f)) + ↑ts) := by abel
        _ = ↑vs + (↑(allTunnels tl) + ↑(f ts)) := by rw [this]
        _ = ↑vs + ↑(allTunnels tl) + ↑(f ts) := by abel

theorem allTunnels_multiset_alRemove (k : Identity) :
    ∀ (l : List (Identity × List Tunnel)) (ts : List Tunnel),
      alGet l k = some ts →
      (↑(allTunnels (alRemove l k)) : Multiset Tunnel) + ↑ts =
        ↑(allTunnels l) := by
  intro l
  induction l with
  | nil =>
    intro ts h
    simp at h
  | cons hd tl ih =>
    intro ts h
    obtain ⟨k₀, vs⟩ := hd
    rw [alGet_cons] at h
    by_cases hk : k₀ = k
    · rw [if_pos hk] at h
      cases h
      simp only [alRemove, if_pos hk, allTunnels_cons]
      simp only [← Multiset.coe_add]
      abel
    · rw [if_neg hk] at h
      have := ih ts h
      simp only [alRemove, if_neg hk, allTunnels_cons]
      simp only [← Multiset.coe_add] at this ⊢
      calc (↑vs + ↑(allTunnels (alRemove tl k)) : Multiset Tunnel) + ↑ts
          = ↑vs + (↑(allTunnels (alRemove tl k)) + ↑ts) := by abel
        _ = ↑vs + ↑(allTunnels tl) := by rw [this]

theorem allTunnels_alInsert_none (k : Identity) (t : Tunnel) :
    ∀ l, alGet l k = none →
      allTunnels (alInsert l k [t]) = allTunnels l ++ [t] := by
  intro l
  induction l with
  | nil =>
    intro
    rfl
  | cons hd tl ih =>
    intro h
    obtain ⟨k₀, vs⟩ := hd
    rw [alGet_cons] at h
    by_cases hk : k₀ = k
    · rw [if_pos hk] at h
      cases h
    · rw [if_neg hk] at h
      simp only [alInsert, if_neg hk, allTunnels_cons, ih h,
        List.append_assoc]

theorem insertTunnel_multiset (k : Identity) (t : Tunnel)
    (l : List (Identity × List Tunnel)) :
    (↑(allTunnels (insertTunnel l k t)) : Multiset Tunnel) =
      ↑(allTunnels l) + {t} := by
  rw [insertTunnel]
  cases hget : alGet l k with
  | some ts =>
      have := allTunnels_multiset_alModify k (fun ts => ts ++ [t]) l ts hget
      have h2 : (↑(ts ++ [t]) : Multiset Tunnel) = ↑ts + {t} := by
        simp [← Multiset.coe_add]
      rw [h2] at this
      have h3 : (↑(allTunnels (alModify l k fun ts => ts ++ [t]))
          : Multiset Tunnel) + ↑ts = ↑(allTunnels l) + {t} + ↑ts := by
        rw [this]
        abel
      exact add_right_cancel h3
  | none =>
      rw [allTunnels_alInsert_none k t l hget]
      simp [← Multiset.coe_add]

theorem alGet_chunk (k : Identity) :
    ∀ (l : List (Identity × List Tunnel)) (ts : List Tunnel),
      alGet l k = some ts →
      ∃ pre post, allTunnels l = pre ++ ts ++ post := by
  intro l
  induction l with
  | nil =>
    intro ts h
    simp at h
  | cons hd tl ih =>
    intro ts h
    obtain ⟨k₀, vs⟩ := hd
    rw [alGet_cons] at h
    by_cases hk : k₀ = k
    · rw [if_pos hk] at h
      cases h
      exact ⟨[], allTunnels tl, by simp [allTunnels_cons]⟩
    · rw [if_neg hk] at h
      obtain ⟨pre, post, hpp⟩ := ih ts h
      exact ⟨vs ++ pre, post, by simp [allTunnels_cons, hpp]⟩

theorem filter_ne_perm (value : Tunnel) :
    ∀ l : List Tunnel, l.Nodup → value ∈ l →
      List.Perm (value :: l.filter fun t => decide (t ≠ value)) l := by
  intro l
  induction l with
  | nil =>
    intro _ hmem
    exact absurd hmem (List.not_mem_nil value)
  | cons h rest ih =>
    intro hnd hmem
    rw [List.nodup_cons] at hnd
    by_cases hh : h = value
    · subst hh
      have hfil : (rest.filter fun t => decide (t ≠ h)) = rest := by
        rw [List.filter_eq_self]
        intro t ht
        simp only [decide_eq_true_eq]
        intro he
        exact hnd.1 (he ▸ ht)
      rw [List.filter_cons_of_neg (by simp), hfil]
    · have hmem' : value ∈ rest := by
        rcases List.mem_cons.mp hmem with he | he
        · exact absurd he.symm hh
        · exact he
      rw [List.filter_cons_of_pos (by simp only [decide_eq_true_eq]; exact hh)]
      exact (List.Perm.swap h value _).trans ((ih hnd.2 hmem').cons h)

theorem gcTimedOut_cons (now T : Nat) (hd : Identity × List Tunnel)
    (tl : List (Identity × List Tunnel)) :
    gcTimedOut now T (hd :: tl) =
      (hd.2.filter fun t => decide (¬(now - t.last_contact < T))) ++
        gcTimedOut now T tl := by
  simp [gcTimedOut, List.filter_append]

theorem gc_partition_multiset (now T : Nat) :
    ∀ l : List (Identity × List Tunnel),
      (↑(allTunnels (gcGood now T l)) : Multiset Tunnel) +
          ↑(gcTimedOut now T l) =
        ↑(allTunnels l) := by
  intro l
  induction l with
  | nil => rfl
  | cons hd tl ih =>
    have hpart : (↑(hd.2.filter fun t => decide (now - t.last_contact < T))
        : Multiset Tunnel) +
        ↑(hd.2.filter fun t => decide (¬(now - t.last_contact < T))) =
        ↑hd.2 := by
      have hp : List.Perm
          ((hd.2.filter fun t => decide (now - t.last_contact < T)) ++
            hd.2.filter fun t => decide (¬(now - t.last_contact < T)))
          hd.2 := by
        have := List.filter_append_perm
          (fun t => decide (now - t.last_contact < T)) hd.2
        rw [show (fun x : Tunnel => !decide (now - x.last_contact < T)) =
            fun t : Tunnel => decide (¬(now - t.last_contact < T)) from
          funext fun x => decide_not.symm] at this
        exact this
      rw [Multiset.coe_add]
      exact Multiset.coe_eq_coe.mpr hp
    rw [gcGood_cons, gcTimedOut_cons]
    by_cases he : (hd.2.filter fun t => decide (now - t.last_contact < T)).isEmpty
    · rw [if_pos he]
      have hfe : (hd.2.filter fun t => decide (now - t.last_contact < T)) = [] :=
        List.isEmpty_iff.mp he
      rw [hfe] at hpart
      simp only [allTunnels_cons, ← Multiset.coe_add] at ih ⊢
      calc (↑(allTunnels (gcGood now T tl)) : Multiset Tunnel) +
            (↑(hd.2.filter fun t => decide (¬(now - t.last_contact < T))) +
              ↑(gcTimedOut now T tl))
          = (↑(hd.2.filter fun t => decide (¬(now - t.last_contact < T)))) +
            (↑(allTunnels (gcGood now T tl)) + ↑(gcTimedOut now T tl)) := by
            abel
        _ = ↑(hd.2.filter fun t => decide (¬(now - t.last_contact < T))) +
            ↑(allTunnels tl) := by rw [ih]
        _ = ↑hd.2 + ↑(allTunnels tl) := by
            rw [show (↑(hd.2.filter fun t =>
                decide (¬(now - t.last_contact < T))) : Multiset Tunnel) =
                ↑hd.2 from by simpa using hpart]
    · rw [if_neg he]
      simp only [allTunnels_cons, ← Multiset.coe_add] at ih ⊢
      calc (↑(hd.2.filter fun t => decide (now - t.last_contact < T))
            : Multiset Tunnel) + ↑(allTunnels (gcGood now T tl)) +
            (↑(hd.2.filter fun t => decide (¬(now - t.last_contact < T))) +
              ↑(gcTimedOut now T tl))
          = (↑(hd.2.filter fun t => decide (now - t.last_contact < T)) +
              ↑(hd.2.filter fun t => decide (¬(now - t.last_contact < T)))) +
            (↑(allTunnels (gcGood now T tl)) + ↑(gcTimedOut now T tl)) := by
            abel
        _ = ↑hd.2 + ↑(allTunnels tl) := by rw [hpart, ih]

theorem gcProcess_ports_allOk (delOk : String → Bool)
    (hdel : ∀ i, delOk i = true) :
    ∀ (l : List Tunnel) (ports : List Nat) (evs : List TMEvent),
      (gcProcess delOk l ports evs).1 =
        ports ++ l.map fun t => t.listen_port := by
  intro l
  induction l with
  | nil =>
    intro ports evs
    simp [gcProcess]
  | cons t rest ih =>
    intro ports evs
    simp only [gcProcess, if_pos (hdel t.iface_name)]
    rw [ih, List.map_cons, List.append_assoc]
    rfl

/-- C4 counterexample: starting from `TunnelManager::new` with
`wg_start_port = 65533` and allocating one port (a successful `get_port`
draw, as every neighbor inquiry does), the drawn port `65533` is in
neither the pool nor any stored tunnel's `listen_port`, so the pool and
the listen ports no longer cover `[wg_start_port, 65535)`. -/
theorem c4_counterexample :
    getPort (some []) (fun _ => 0) (TMState.new 65533).free_ports =
      .found 65533 [65534] ∧
    65533 ∈ List.range' 65533 (65535 - 65533) ∧
    ¬(65533 ∈ ([65534] : List Nat) ∨
      65533 ∈ listenPorts (TMState.new 65533).tunnels) := by
  refine ⟨by decide, by decide, ?_⟩
  rintro (h | h)
  · simp at h
  · simp [TMState.new, listenPorts, allTunnels] at h

theorem getTunnelByIfidx_mem (ifidx : Nat) :
    ∀ (l : List Tunnel) (t : Tunnel), getTunnelByIfidx ifidx l = some t →
      t ∈ l := by
  intro l
  induction l with
  | nil =>
    intro t h
    simp [getTunnelByIfidx] at h
  | cons hd tl ih =>
    intro t h
    rw [getTunnelByIfidx] at h
    by_cases hc : hd.listen_ifidx = ifidx
    · rw [if_pos hc] at h
      cases h
      exact List.mem_cons_self hd tl
    · rw [if_neg hc] at h
      exact List.mem_cons_of_mem hd (ih t h)

theorem listen_insertTunnel (k : Identity) (t : Tunnel)
    (l : List (Identity × List Tunnel)) :
    (↑(listenPorts (insertTunnel l k t)) : Multiset Nat) =
      ↑(listenPorts l) + {t.listen_port} := by
  have hmap := congrArg (Multiset.map fun t => t.listen_port)
    (insertTunnel_multiset k t l)
  rw [Multiset.map_add, Multiset.map_coe, Multiset.map_coe,
    Multiset.map_singleton] at hmap
  simpa [listenPorts] using hmap

theorem listen_bump (k : Identity) (ifidx ip now : Nat)
    (l : List (Identity × List Tunnel)) :
    listenPorts (alModify l k (List.map fun t =>
        if t.listen_ifidx = ifidx ∧ t.ip = ip then
          { t with last_contact := now }
        else t)) = listenPorts l :=
  listenPorts_alModify_map k _
    (fun t => by
      by_cases hc : t.listen_ifidx = ifidx ∧ t.ip = ip <;> simp [hc]) l

theorem coe_erase_add (p : Nat) (outs : List Nat) (hp : p ∈ outs) :
    (↑outs : Multiset Nat) = ↑(outs.erase p) + {p} := by
  calc (↑outs : Multiset Nat) = ↑(p :: outs.erase p) :=
        Multiset.coe_eq_coe.mpr (List.perm_cons_erase hp)
    _ = p ::ₘ ↑(outs.erase p) := (Multiset.cons_coe _ _).symm
    _ = ↑(outs.erase p) + {p} := by
        rw [← Multiset.singleton_add]
        abel

theorem poolInv_listen_nodup (start : Nat) (st : TMState) (outs : List Nat)
    (hInv : PoolInv start st outs) : (listenPorts st.tunnels).Nodup := by
  rw [PoolInv] at hInv
  have hperm : ((st.free_ports ++ listenPorts st.tunnels) ++ outs).Perm
      (List.range' start (65535 - start)) := by
    apply Multiset.coe_eq_coe.mp
    simpa [← Multiset.coe_add, add_assoc] using hInv
  have hnd := hperm.symm.nodup (List.nodup_range' start (65535 - start) 1
    (by norm_num))
  exact hnd.of_append_left.of_append_right

theorem listen_chunk_nodup (k : Identity)
    (l : List (Identity × List Tunnel)) (ts : List Tunnel)
    (hget : alGet l k = some ts) (hnd : (listenPorts l).Nodup) :
    ts.Nodup := by
  obtain ⟨pre, post, hpp⟩ := alGet_chunk k l ts hget
  rw [listenPorts, hpp, List.map_append, List.map_append] at hnd
  exact (hnd.of_append_left.of_append_right).of_map _

theorem createNewTunnel_pool_inv (start now : Nat) (fresh : String)
    (openOk : Bool) (lid : LocalIdentity) (peer : Peer) (port : Nat)
    (rb : Bool) (st : TMState) (evs0 : List TMEvent) (outs : List Nat)
    (st' : TMState) (t : Tunnel) (b : Bool) (evs : List TMEvent)
    (hp : port ∈ outs)
    (h : createNewTunnel now fresh openOk lid peer port rb st evs0 =
      .ok (st', t, b, evs))
    (hInv : PoolInv start st outs) :
    PoolInv start st' (outs.erase port) := by
  rw [createNewTunnel] at h
  by_cases hok : openOk = true
  · rw [if_pos hok] at h
    cases h
    rw [PoolInv] at hInv ⊢
    have hlis := listen_insertTunnel
      (Tunnel.mk' peer.ip fresh port peer.ifidx lid now).neigh_id.global
      (Tunnel.mk' peer.ip fresh port peer.ifidx lid now) st.tunnels
    have hport : (Tunnel.mk' peer.ip fresh port peer.ifidx
        lid now).listen_port = port := rfl
    rw [hport] at hlis
    rw [coe_erase_add port outs hp] at hInv
    calc (↑st.free_ports : Multiset Nat) +
          ↑(listenPorts (insertTunnel st.tunnels
            (Tunnel.mk' peer.ip fresh port peer.ifidx lid now).neigh_id.global
            (Tunnel.mk' peer.ip fresh port peer.ifidx lid now))) +
          ↑(outs.erase port)
        = ↑st.free_ports + (↑(listenPorts st.tunnels) + {port}) +
            ↑(outs.erase port) := by rw [hlis]
      _ = ↑st.free_ports + ↑(listenPorts st.tunnels) +
            (↑(outs.erase port) + {port}) := by abel
      _ = ↑(List.range' start (65535 - start)) := hInv
  · rw [if_neg hok] at h
    cases h

theorem listen_alRemove_empty (k : Identity)
    (l : List (Identity × List Tunnel))
    (h : alGet l k = some ([] : List Tunnel)) :
    (↑(listenPorts (alRemove l k)) : Multiset Nat) = ↑(listenPorts l) := by
  have hmap := congrArg (Multiset.map fun t => t.listen_port)
    (allTunnels_multiset_alRemove k l [] h)
  rw [Multiset.map_add, Multiset.map_coe, Multiset.map_coe] at hmap
  simpa [listenPorts] using hmap

theorem asym_listen (k : Identity) (M : List (Identity × List Tunnel))
    (l' : List Tunnel) (value : Tunnel)
    (hnd : (listenPorts M).Nodup)
    (hmod : alGet M k = some l')
    (hvmem : value ∈ l') :
    (↑(listenPorts (alModify M k fun _ => delTunnel value l')) : Multiset Nat)
      + {value.listen_port} = ↑(listenPorts M) := by
  have hndl' : l'.Nodup := listen_chunk_nodup k M l' hmod hnd
  have hperm := filter_ne_perm value l' hndl' hvmem
  have hdelm : (↑l' : Multiset Tunnel) = ↑(delTunnel value l') + {value} := by
    calc (↑l' : Multiset Tunnel) = ↑(value :: delTunnel value l') :=
          Multiset.coe_eq_coe.mpr hperm.symm
      _ = value ::ₘ ↑(delTunnel value l') := (Multiset.cons_coe _ _).symm
      _ = ↑(delTunnel value l') + {value} := by
          rw [← Multiset.singleton_add]
          abel
  have hmap := congrArg (Multiset.map fun t => t.listen_port)
    (allTunnels_multiset_alModify k (fun _ => delTunnel value l') M l' hmod)
  rw [Multiset.map_add, Multiset.map_add, Multiset.map_coe, Multiset.map_coe,
    Multiset.map_coe, Multiset.map_coe] at hmap
  have hdelmap := congrArg (Multiset.map fun t => t.listen_port) hdelm
  rw [Multiset.map_add, Multiset.map_coe, Multiset.map_coe,
    Multiset.map_singleton] at hdelmap
  have hkey : (↑(listenPorts (alModify M k fun _ => delTunnel value l')) :
      Multiset Nat) + {value.listen_port} +
      ↑((delTunnel value l').map fun t => t.listen_port) =
      ↑(listenPorts M) +
        ↑((delTunnel value l').map fun t => t.listen_port) := by
    simp only [listenPorts]
    calc (↑((allTunnels (alModify M k fun _ => delTunnel value l')).map
          fun t => t.listen_port) : Multiset Nat) + {value.listen_port} +
          ↑((delTunnel value l').map fun t => t.listen_port)
        = ↑((allTunnels (alModify M k fun _ => delTunnel value l')).map
            fun t => t.listen_port) +
          (↑((delTunnel value l').map fun t => t.listen_port) +
            {value.listen_port}) := by abel
      _ = ↑((allTunnels (alModify M k fun _ => delTunnel value l')).map
            fun t => t.listen_port) + ↑(l'.map fun t => t.listen_port) := by
          rw [← hdelmap]
      _ = ↑((allTunnels M).map fun t => t.listen_port) +
          ↑((delTunnel value l').map fun t => t.listen_port) := hmap
  exact add_right_cancel hkey

/-- C4 amended: the free-port pool, the stored tunnels' `listen_port`s
and the outstanding speculative ports are pairwise disjoint and together
form exactly `[wg_start_port, 65535)` (each port exactly once, which is
what the multiset equation states); the invariant holds initially and is
preserved by every tunnel-manager operation — port allocation (which
moves the drawn port out of both sets, into the outstanding set),
`PortCallback`, `IdentityCallback`/`open_tunnel` with a pre-allocated
port, and GC with succeeding `del_interface`.  In particular, whenever no
speculative port is outstanding, pool and listen ports partition
`[wg_start_port, 65535)` exactly as the claim states. -/
theorem c4_pool_invariant (start : Nat) :
    PoolInv start (TMState.new start) [] ∧
    (∀ (s : TMState) (outs : List Nat) (s' : TMState) (outs' : List Nat),
      PoolInv start s outs → TMStep s outs s' outs' →
      PoolInv start s' outs') := by
  constructor
  · rw [PoolInv]
    simp [TMState.new, listenPorts, allTunnels]
  intro s outs s' outs' hInv hstep
  cases hstep with
  | allocPort used rng st outs p pool' h =>
      have hperm := (getPortAux_found_spec used rng 10 0 s.free_ports p
        pool' h).2.2
      have hpool : (↑s.free_ports : Multiset Nat) = ↑pool' + {p} := by
        calc (↑s.free_ports : Multiset Nat) = ↑(p :: pool') :=
              Multiset.coe_eq_coe.mpr hperm
          _ = p ::ₘ ↑pool' := (Multiset.cons_coe _ _).symm
          _ = ↑pool' + {p} := by
              rw [← Multiset.singleton_add]
              abel
      rw [PoolInv] at hInv ⊢
      calc (↑pool' : Multiset Nat) + ↑(listenPorts s.tunnels) + ↑(p :: outs)
          = ↑pool' + ↑(listenPorts s.tunnels) + (p ::ₘ ↑outs) := by
            rw [Multiset.cons_coe]
        _ = (↑pool' + {p}) + ↑(listenPorts s.tunnels) + ↑outs := by
            rw [← Multiset.singleton_add]
            abel
        _ = ↑s.free_ports + ↑(listenPorts s.tunnels) + ↑outs := by
            rw [← hpool]
        _ = ↑(List.range' start (65535 - start)) := hInv
  | portCallback st outs p hp =>
      rw [PoolInv] at hInv ⊢
      rw [coe_erase_add p outs hp] at hInv
      calc (↑(s.free_ports ++ [p]) : Multiset Nat) +
            ↑(listenPorts s.tunnels) + ↑(outs.erase p)
          = (↑s.free_ports + {p}) + ↑(listenPorts s.tunnels) +
            ↑(outs.erase p) := by
            rw [← Multiset.coe_add]
            simp [Multiset.coe_singleton]
        _ = ↑s.free_ports + ↑(listenPorts s.tunnels) +
            (↑(outs.erase p) + {p}) := by abel
        _ = ↑(List.range' start (65535 - start)) := hInv
  | gc now T delOk st outs hdel =>
      have hports : (triggerGC now T delOk s).1.free_ports =
          s.free_ports ++ (gcTimedOut now T s.tunnels).map
            fun t => t.listen_port := by
        simp only [triggerGC]
        exact gcProcess_ports_allOk delOk hdel _ _ _
      have htun : (triggerGC now T delOk s).1.tunnels =
          gcGood now T s.tunnels := by
        simp [triggerGC]
      have hmap := congrArg (Multiset.map fun t => t.listen_port)
        (gc_partition_multiset now T s.tunnels)
      rw [Multiset.map_add, Multiset.map_coe, Multiset.map_coe,
        Multiset.map_coe] at hmap
      rw [PoolInv] at hInv ⊢
      rw [hports, htun]
      calc (↑(s.free_ports ++ (gcTimedOut now T s.tunnels).map
            fun t => t.listen_port) : Multiset Nat) +
            ↑(listenPorts (gcGood now T s.tunnels)) + ↑outs
          = ↑s.free_ports +
            (↑((allTunnels (gcGood now T s.tunnels)).map
                fun t => t.listen_port) +
              ↑((gcTimedOut now T s.tunnels).map fun t => t.listen_port)) +
            ↑outs := by
            rw [← Multiset.coe_add]
            simp only [listenPorts]
            abel
        _ = ↑s.free_ports + ↑((allTunnels s.tunnels).map
              fun t => t.listen_port) + ↑outs := by rw [hmap]
        _ = ↑(List.range' start (65535 - start)) := by
            simp only [listenPorts] at hInv
            exact hInv
  | identityCallback now fresh openOk lid peer port _ _ _ t b evs hp h =>
      rw [openTunnel] at h
      cases hget : alGet s.tunnels lid.global with
      | none =>
          simp only [hget, if_neg Bool.false_ne_true] at h
          exact createNewTunnel_pool_inv start now fresh openOk lid peer port
            false s [] outs s' t b evs hp h hInv
      | some ts =>
          simp only [hget] at h
          by_cases hwe : (haveTunnelByIfidx peer.ifidx ts &&
              haveTunnelByIp peer.ip ts) = true
          · rw [if_pos hwe] at h
            have hmod : alGet (alModify s.tunnels lid.global fun l =>
                l.map fun t =>
                  if t.listen_ifidx = peer.ifidx ∧ t.ip = peer.ip then
                    { t with last_contact := now }
                  else t) lid.global =
                some (ts.map fun t =>
                  if t.listen_ifidx = peer.ifidx ∧ t.ip = peer.ip then
                    { t with last_contact := now }
                  else t) := by
              rw [alGet_alModify_self, hget]
              rfl
            by_cases hth : lid.have_tunnel.getD true = true
            · rw [if_pos hth] at h
              simp only [hmod] at h
              cases hfind : getTunnelByIfidx peer.ifidx (ts.map fun t =>
                  if t.listen_ifidx = peer.ifidx ∧ t.ip = peer.ip then
                    { t with last_contact := now }
                  else t) with
              | none =>
                  rw [hfind] at h
                  exact absurd h (by simp)
              | some tun =>
                  simp only [hfind] at h
                  cases h
                  rw [PoolInv] at hInv ⊢
                  rw [coe_erase_add port outs hp] at hInv
                  rw [listen_bump lid.global peer.ifidx peer.ip now s.tunnels]
                  calc (↑(s.free_ports ++ [port]) : Multiset Nat) +
                        ↑(listenPorts s.tunnels) + ↑(outs.erase port)
                      = (↑s.free_ports + {port}) + ↑(listenPorts s.tunnels) +
                        ↑(outs.erase port) := by
                        rw [← Multiset.coe_add]
                        simp [Multiset.coe_singleton]
                    _ = ↑s.free_ports + ↑(listenPorts s.tunnels) +
                        (↑(outs.erase port) + {port}) := by abel
                    _ = ↑(List.range' start (65535 - start)) := hInv
            · rw [if_neg hth] at h
              simp only [hmod] at h
              cases hfind : getTunnelByIfidx peer.ifidx (ts.map fun t =>
                  if t.listen_ifidx = peer.ifidx ∧ t.ip = peer.ip then
                    { t with last_contact := now }
                  else t) with
              | none =>
                  rw [hfind] at h
                  exact absurd h (by simp)
              | some value =>
                  simp only [hfind] at h
                  have hnd0 : (listenPorts s.tunnels).Nodup :=
                    poolInv_listen_nodup start s outs hInv
                  have hndM : (listenPorts (alModify s.tunnels lid.global
                      fun l => l.map fun t =>
                        if t.listen_ifidx = peer.ifidx ∧ t.ip = peer.ip then
                          { t with last_contact := now }
                        else t)).Nodup := by
                    rw [listen_bump]
                    exact hnd0
                  have hvmem := getTunnelByIfidx_mem peer.ifidx _ value hfind
                  have hasym := asym_listen lid.global _ _ value hndM hmod hvmem
                  rw [listen_bump lid.global peer.ifidx peer.ip now
                    s.tunnels] at hasym
                  have hst2 : ∀ tun2 : List (Identity × List Tunnel),
                      (↑(listenPorts tun2) : Multiset Nat) +
                          {value.listen_port} = ↑(listenPorts s.tunnels) →
                      PoolInv start ⟨s.free_ports ++ [value.listen_port],
                        tun2⟩ outs := by
                    intro tun2 hlis
                    rw [PoolInv] at hInv ⊢
                    calc (↑(s.free_ports ++ [value.listen_port]) :
                          Multiset Nat) + ↑(listenPorts tun2) + ↑outs
                        = ↑s.free_ports + (↑(listenPorts tun2) +
                            {value.listen_port}) + ↑outs := by
                          rw [← Multiset.coe_add]
                          simp only [Multiset.coe_singleton]
                          abel
                      _ = ↑s.free_ports + ↑(listenPorts s.tunnels) + ↑outs := by
                          rw [hlis]
                      _ = ↑(List.range' start (65535 - start)) := hInv
                  by_cases hlen : (delTunnel value (ts.map fun t =>
                      if t.listen_ifidx = peer.ifidx ∧ t.ip = peer.ip then
                        { t with last_contact := now }
                      else t)).length = 0
                  · rw [if_pos hlen] at h
                    have hfil := List.length_eq_zero.mp hlen
                    refine createNewTunnel_pool_inv start now fresh openOk lid
                      peer port true _ _ outs s' t b evs hp h (hst2 _ ?_)
                    rw [listen_alRemove_empty lid.global _ (by
                      rw [alGet_alModify_self, hmod]
                      rw [hfil]
                      rfl)]
                    exact hasym
                  · rw [if_neg hlen] at h
                    exact createNewTunnel_pool_inv start now fresh openOk lid
                      peer port true _ _ outs s' t b evs hp h (hst2 _ hasym)
          · rw [if_neg hwe] at h
            exact createNewTunnel_pool_inv start now fresh openOk lid peer
              port false s [] outs s' t b evs hp h hInv

/-! ### Relay traffic watcher (C1) -/

/-- The per-destination price as the C1 claim words it:
`min(route.price, max_fee) + local_fee` for the installed IPv6 `/128`
route to the destination, the node's own `mesh_ip` priced `0`, and no
price for unmapped destinations.  This is the specification-side
counterpart against which `get_babel_info`'s map is checked. -/
def specPrice (local_fee max_fee mesh_ip : Nat) (routes : List Route)
    (dst : Nat) : Option Nat :=
  if dst = mesh_ip then some 0
  else
    match routes.find? (fun r => decide (r.isIpv6 ∧ r.prefixLen = 128 ∧
        r.installed ∧ r.prefixIp = dst)) with
    | some r => some (min r.price max_fee + local_fee)
    | none => none

/-- Sum over the counter rows of one interface, weighing each mapped
row's byte count with `f price bytes`; rows whose destination has no
price, or that belong to another interface, contribute nothing. -/
def counterSum (price? : Nat → Option Nat) (iface : String)
    (f : Nat → Nat → Int) (rows : List ((Nat × String) × Nat)) : Int :=
  (rows.map fun row =>
    if row.1.2 = iface then
      match price? row.1.1 with
      | some p => f p row.2
      | none => 0
    else 0).sum

theorem destFold_no_qual (local_fee max_fee : Nat) (dst : Nat) :
    ∀ (routes : List Route) (acc : List (Nat × Int)),
      (∀ r ∈ routes, ¬(r.isIpv6 ∧ r.prefixLen = 128 ∧ r.installed ∧
        r.prefixIp = dst)) →
      alGet (routes.foldl (fun dests r =>
        if r.isIpv6 ∧ r.prefixLen = 128 ∧ r.installed then
          alInsert dests r.prefixIp
            (Int.ofNat (((if r.price > max_fee then max_fee else r.price) +
              local_fee) % 4294967296))
        else dests) acc) dst = alGet acc dst := by
  intro routes
  induction routes with
  | nil =>
    intro acc _
    rfl
  | cons r rest ih =>
    intro acc hno
    rw [List.foldl_cons]
    by_cases hq : r.isIpv6 ∧ r.prefixLen = 128 ∧ r.installed
    · rw [if_pos hq]
      have hne : r.prefixIp ≠ dst := fun he =>
        hno r (List.mem_cons_self r rest) ⟨hq.1, hq.2.1, hq.2.2, he⟩
      rw [ih _ fun r' hr' => hno r' (List.mem_cons_of_mem r hr'),
        alGet_alInsert_ne _ _ _ _ hne]
    · rw [if_neg hq]
      exact ih _ fun r' hr' => hno r' (List.mem_cons_of_mem r hr')

theorem destFold_get (local_fee max_fee : Nat) (dst : Nat) :
    ∀ (routes : List Route) (acc : List (Nat × Int)),
      ((routes.filter fun r => decide (r.isIpv6 ∧ r.prefixLen = 128 ∧
        r.installed)).map fun r => r.prefixIp).Nodup →
      alGet (routes.foldl (fun dests r =>
        if r.isIpv6 ∧ r.prefixLen = 128 ∧ r.installed then
          alInsert dests r.prefixIp
            (Int.ofNat (((if r.price > max_fee then max_fee else r.price) +
              local_fee) % 4294967296))
        else dests) acc) dst =
      match routes.find? (fun r => decide (r.isIpv6 ∧ r.prefixLen = 128 ∧
          r.installed ∧ r.prefixIp = dst)) with
      | some r => some (Int.ofNat (((if r.price > max_fee then max_fee
          else r.price) + local_fee) % 4294967296))
      | none => alGet acc dst := by
  intro routes
  induction routes with
  | nil =>
    intro acc _
    rfl
  | cons r rest ih =>
    intro acc hnd
    rw [List.foldl_cons]
    by_cases hq : r.isIpv6 ∧ r.prefixLen = 128 ∧ r.installed
    · have hfil : (r :: rest).filter (fun r => decide (r.isIpv6 ∧
          r.prefixLen = 128 ∧ r.installed)) =
          r :: rest.filter fun r => decide (r.isIpv6 ∧ r.prefixLen = 128 ∧
            r.installed) :=
        List.filter_cons_of_pos (by simpa using hq)
      rw [hfil, List.map_cons, List.nodup_cons] at hnd
      rw [if_pos hq]
      by_cases hdst : r.prefixIp = dst
      · rw [List.find?_cons_of_pos _ (by simp [hq, hdst])]
        have hno : ∀ r' ∈ rest, ¬(r'.isIpv6 ∧ r'.prefixLen = 128 ∧
            r'.installed ∧ r'.prefixIp = dst) := by
          intro r' hr' ⟨h1, h2, h3, h4⟩
          refine hnd.1 ?_
          rw [hdst]
          rw [← h4]
          exact List.mem_map_of_mem _
            (List.mem_filter.mpr ⟨hr', by simp [h1, h2, h3]⟩)
        rw [destFold_no_qual local_fee max_fee dst rest _ hno, hdst,
          alGet_alInsert_self]
      · rw [List.find?_cons_of_neg _ (by simp [hdst])]
        rw [ih _ hnd.2]
        cases rest.find? (fun r => decide (r.isIpv6 ∧ r.prefixLen = 128 ∧
            r.installed ∧ r.prefixIp = dst)) with
        | some r' => rfl
        | none => exact alGet_alInsert_ne _ _ _ _ hdst
    · have hfil : (r :: rest).filter (fun r => decide (r.isIpv6 ∧
          r.prefixLen = 128 ∧ r.installed)) =
          rest.filter fun r => decide (r.isIpv6 ∧ r.prefixLen = 128 ∧
            r.installed) :=
        List.filter_cons_of_neg (by simpa using hq)
      rw [hfil] at hnd
      rw [if_neg hq, List.find?_cons_of_neg _ (by
        simp only [decide_eq_true_eq]
        rintro ⟨h1, h2, h3, _⟩
        exact hq ⟨h1, h2, h3⟩)]
      exact ih _ hnd

theorem getBabelInfo_spec (local_fee max_fee mesh_ip : Nat)
    (routes : List Route)
    (hnd : ((routes.filter fun r => decide (r.isIpv6 ∧ r.prefixLen = 128 ∧
      r.installed)).map fun r => r.prefixIp).Nodup)
    (hov : ∀ r ∈ routes, min r.price max_fee + local_fee < 4294967296) :
    ∃ dests, getBabelInfo local_fee max_fee (some mesh_ip) routes =
        .ok (dests, local_fee) ∧
      ∀ dst, alGet dests dst =
        (specPrice local_fee max_fee mesh_ip routes dst).map Int.ofNat := by
  refine ⟨_, rfl, ?_⟩
  intro dst
  rw [specPrice]
  by_cases hdm : dst = mesh_ip
  · rw [if_pos hdm, hdm, alGet_alInsert_self]
    rfl
  · rw [if_neg hdm,
      alGet_alInsert_ne _ _ _ _ fun he => hdm he.symm,
      destFold_get local_fee max_fee dst routes [] hnd]
    cases hfind : routes.find? (fun r => decide (r.isIpv6 ∧
        r.prefixLen = 128 ∧ r.installed ∧ r.prefixIp = dst)) with
    | some r =>
        have hmem := List.mem_of_find?_eq_some hfind
        have hcap : (if r.price > max_fee then max_fee else r.price) =
            min r.price max_fee := by
          by_cases hc : r.price > max_fee <;> simp [hc] <;> omega
        show some (Int.ofNat (((if r.price > max_fee then max_fee
            else r.price) + local_fee) % 4294967296)) =
          some (Int.ofNat (min r.price max_fee + local_fee))
        rw [hcap, Nat.mod_eq_of_lt (hov r hmem)]
    | none => rfl

theorem phm_if_preserved (f : String) :
    ∀ (ns : List Neighbor)
      (acc : List (Nat × Identity) × List (String × Identity)),
      (∀ m ∈ ns, m.iface_name ≠ f) →
      alGet (ns.foldl (fun acc n =>
        (alInsert acc.1 n.identity.global.mesh_ip n.identity.global,
         alInsert acc.2 n.iface_name n.identity.global)) acc).2 f =
        alGet acc.2 f := by
  intro ns
  induction ns with
  | nil =>
    intro acc _
    rfl
  | cons m rest ih =>
    intro acc hno
    rw [List.foldl_cons,
      ih _ fun m' hm' => hno m' (List.mem_cons_of_mem m hm')]
    exact alGet_alInsert_ne _ _ _ _ (hno m (List.mem_cons_self m rest))

theorem phm_mesh_preserved (g : Nat) :
    ∀ (ns : List Neighbor)
      (acc : List (Nat × Identity) × List (String × Identity)),
      (∀ m ∈ ns, m.identity.global.mesh_ip ≠ g) →
      alGet (ns.foldl (fun acc n =>
        (alInsert acc.1 n.identity.global.mesh_ip n.identity.global,
         alInsert acc.2 n.iface_name n.identity.global)) acc).1 g =
        alGet acc.1 g := by
  intro ns
  induction ns with
  | nil =>
    intro acc _
    rfl
  | cons m rest ih =>
    intro acc hno
    rw [List.foldl_cons,
      ih _ fun m' hm' => hno m' (List.mem_cons_of_mem m hm')]
    exact alGet_alInsert_ne _ _ _ _ (hno m (List.mem_cons_self m rest))

theorem phm_if_get (n : Neighbor) :
    ∀ (ns : List Neighbor)
      (acc : List (Nat × Identity) × List (String × Identity)),
      ((ns.map fun m => m.iface_name).Nodup) → n ∈ ns →
      alGet (ns.foldl (fun acc n =>
        (alInsert acc.1 n.identity.global.mesh_ip n.identity.global,
         alInsert acc.2 n.iface_name n.identity.global)) acc).2
        n.iface_name = some n.identity.global := by
  intro ns
  induction ns with
  | nil =>
    intro acc _ hmem
    exact absurd hmem (List.not_mem_nil n)
  | cons m rest ih =>
    intro acc hnd hmem
    rw [List.map_cons, List.nodup_cons] at hnd
    rw [List.foldl_cons]
    rcases List.mem_cons.mp hmem with rfl | hr
    · rw [phm_if_preserved n.iface_name rest _ fun m' hm' he =>
        hnd.1 (he ▸ List.mem_map_of_mem (fun m => m.iface_name) hm')]
      exact alGet_alInsert_self _ _ _
    · exact ih _ hnd.2 hr

theorem phm_mesh_get (n : Neighbor) :
    ∀ (ns : List Neighbor)
      (acc : List (Nat × Identity) × List (String × Identity)),
      ((ns.map fun m => m.identity.global.mesh_ip).Nodup) → n ∈ ns →
      alGet (ns.foldl (fun acc n =>
        (alInsert acc.1 n.identity.global.mesh_ip n.identity.global,
         alInsert acc.2 n.iface_name n.identity.global)) acc).1
        n.identity.global.mesh_ip = some n.identity.global := by
  intro ns
  induction ns with
  | nil =>
    intro acc _ hmem
    exact absurd hmem (List.not_mem_nil n)
  | cons m rest ih =>
    intro acc hnd hmem
    rw [List.map_cons, List.nodup_cons] at hnd
    rw [List.foldl_cons]
    rcases List.mem_cons.mp hmem with rfl | hr
    · rw [phm_mesh_preserved n.identity.global.mesh_ip rest _
        fun m' hm' he => hnd.1 (he ▸ List.mem_map_of_mem
          (fun m => m.identity.global.mesh_ip) hm')]
      exact alGet_alInsert_self _ _ _
    · exact ih _ hnd.2 hr

theorem phm_if_get_inv :
    ∀ (ns : List Neighbor)
      (acc : List (Nat × Identity) × List (String × Identity))
      (f : String) (id : Identity),
      alGet (ns.foldl (fun acc n =>
        (alInsert acc.1 n.identity.global.mesh_ip n.identity.global,
         alInsert acc.2 n.iface_name n.identity.global)) acc).2 f =
        some id →
      (∃ m ∈ ns, m.iface_name = f ∧ m.identity.global = id) ∨
        alGet acc.2 f = some id := by
  intro ns
  induction ns with
  | nil =>
    intro acc f id h
    exact Or.inr h
  | cons m rest ih =>
    intro acc f id h
    rw [List.foldl_cons] at h
    rcases ih _ f id h with ⟨m', hm', he⟩ | hacc
    · exact Or.inl ⟨m', List.mem_cons_of_mem m hm', he⟩
    · by_cases hmf : m.iface_name = f
      · rw [hmf] at hacc
        rw [alGet_alInsert_self] at hacc
        cases hacc
        exact Or.inl ⟨m, List.mem_cons_self m rest, hmf, rfl⟩
      · rw [alGet_alInsert_ne _ _ _ _ hmf] at hacc
        exact Or.inr hacc

theorem alGet_some_mem_values {α β : Type} [DecidableEq α] (k : α) (v : β) :
    ∀ l : List (α × β), alGet l k = some v → v ∈ l.map Prod.snd := by
  intro l
  induction l with
  | nil =>
    intro h
    simp at h
  | cons hd tl ih =>
    intro h
    rw [alGet_cons] at h
    by_cases hk : hd.1 = k
    · rw [if_pos hk] at h
      cases h
      exact List.mem_cons_self _ _
    · rw [if_neg hk] at h
      exact List.mem_cons_of_mem _ (ih h)

theorem debts0_get (g : Identity) :
    ∀ (entries : List (Nat × Identity)) (acc : List (Identity × Int)),
      (g ∈ entries.map Prod.snd ∨ alGet acc g = some 0) →
      alGet (entries.foldl (fun d kv => alInsert d kv.2 0) acc) g =
        some 0 := by
  intro entries
  induction entries with
  | nil =>
    intro acc h
    rcases h with h | h
    · simp at h
    · exact h
  | cons kv rest ih =>
    intro acc h
    rw [List.foldl_cons]
    refine ih _ ?_
    rcases h with h | h
    · rw [List.map_cons] at h
      rcases List.mem_cons.mp h with rfl | h
      · exact Or.inr (alGet_alInsert_self _ _ _)
      · exact Or.inl h
    · by_cases hk : kv.2 = g
      · exact Or.inr (hk ▸ alGet_alInsert_self _ _ _)
      · exact Or.inr ((alGet_alInsert_ne _ _ _ _ hk).trans h)

theorem inputFold_get (dests : List (Nat × Int))
    (ifmap : List (String × Identity)) (id : Identity) (f : String)
    (hf : alGet ifmap f = some id)
    (hinj : ∀ iface rid, alGet ifmap iface = some rid → rid = id →
      iface = f) :
    ∀ (rows : List ((Nat × String) × Nat)) (debts : List (Identity × Int))
      (v : Int),
      alGet debts id = some v →
      alGet (rows.foldl (fun d row =>
          match alGet dests row.1.1, alGet ifmap row.1.2 with
          | some dest, some rid =>
              alModify d rid fun x => x - dest * Int.ofNat row.2
          | _, _ => d) debts) id =
        some (v + ((rows.map fun row =>
          if row.1.2 = f then
            match alGet dests row.1.1 with
            | some dest => -(dest * Int.ofNat row.2)
            | none => 0
          else 0).sum)) := by
  intro rows
  induction rows with
  | nil =>
    intro debts v hv
    simpa using hv
  | cons row rest ih =>
    intro debts v hv
    rw [List.foldl_cons]
    simp only [List.map_cons, List.sum_cons]
    cases hd : alGet dests row.1.1 with
    | some dest =>
        cases hi : alGet ifmap row.1.2 with
        | some rid =>
            by_cases hrid : rid = id
            · subst hrid
              have hife : row.1.2 = f := hinj row.1.2 rid hi rfl
              have hv' : alGet (alModify debts rid fun x =>
                  x - dest * Int.ofNat row.2) rid =
                  some (v - dest * Int.ofNat row.2) := by
                rw [alGet_alModify_self, hv]
                rfl
              rw [ih _ _ hv', if_pos hife]
              congr 1
              show v - dest * Int.ofNat row.2 + _ =
                v + (-(dest * Int.ofNat row.2) + _)
              ring
            · have hne : row.1.2 ≠ f := by
                intro he
                rw [he] at hi
                rw [hf] at hi
                exact hrid (Option.some.inj hi).symm
              have hvpres : alGet (alModify debts rid fun x =>
                  x - dest * Int.ofNat row.2) id = some v := by
                rw [alGet_alModify_ne _ _ _ _ hrid, hv]
              rw [ih _ _ hvpres, if_neg hne]
              congr 1
              ring
        | none =>
            have hne : row.1.2 ≠ f := by
              intro he
              rw [he] at hi
              rw [hf] at hi
              cases hi
            rw [ih _ _ hv, if_neg hne]
            congr 1
            ring
    | none =>
        cases hi : alGet ifmap row.1.2 with
        | some rid =>
            rw [ih _ _ hv]
            by_cases hife : row.1.2 = f
            · rw [if_pos hife]
              congr 1
              show v + _ = v + (0 + _)
              ring
            · rw [if_neg hife]
              congr 1
              ring
        | none =>
            rw [ih _ _ hv]
            by_cases hife : row.1.2 = f
            · rw [if_pos hife]
              congr 1
              show v + _ = v + (0 + _)
              ring
            · rw [if_neg hife]
              congr 1
              ring

theorem outputFold_get (dests : List (Nat × Int)) (fee : Nat)
    (ifmap : List (String × Identity)) (id : Identity) (f : String)
    (hf : alGet ifmap f = some id)
    (hinj : ∀ iface rid, alGet ifmap iface = some rid → rid = id →
      iface = f) :
    ∀ (rows : List ((Nat × String) × Nat)) (debts : List (Identity × Int))
      (v : Int),
      alGet debts id = some v →
      alGet (rows.foldl (fun d row =>
          match alGet dests row.1.1, alGet ifmap row.1.2 with
          | some dest, some rid =>
              alModify d rid fun x =>
                x + (dest - Int.ofNat fee) * Int.ofNat row.2
          | _, _ => d) debts) id =
        some (v + ((rows.map fun row =>
          if row.1.2 = f then
            match alGet dests row.1.1 with
            | some dest => (dest - Int.ofNat fee) * Int.ofNat row.2
            | none => 0
          else 0).sum)) := by
  intro rows
  induction rows with
  | nil =>
    intro debts v hv
    simpa using hv
  | cons row rest ih =>
    intro debts v hv
    rw [List.foldl_cons]
    simp only [List.map_cons, List.sum_cons]
    cases hd : alGet dests row.1.1 with
    | some dest =>
        cases hi : alGet ifmap row.1.2 with
        | some rid =>
            by_cases hrid : rid = id
            · subst hrid
              have hife : row.1.2 = f := hinj row.1.2 rid hi rfl
              have hv' : alGet (alModify debts rid fun x =>
                  x + (dest - Int.ofNat fee) * Int.ofNat row.2) rid =
                  some (v + (dest - Int.ofNat fee) * Int.ofNat row.2) := by
                rw [alGet_alModify_self, hv]
                rfl
              rw [ih _ _ hv', if_pos hife]
              congr 1
              show v + (dest - Int.ofNat fee) * Int.ofNat row.2 + _ =
                v + ((dest - Int.ofNat fee) * Int.ofNat row.2 + _)
              ring
            · have hne : row.1.2 ≠ f := by
                intro he
                rw [he] at hi
                rw [hf] at hi
                exact hrid (Option.some.inj hi).symm
              have hvpres : alGet (alModify debts rid fun x =>
                  x + (dest - Int.ofNat fee) * Int.ofNat row.2) id =
                  some v := by
                rw [alGet_alModify_ne _ _ _ _ hrid, hv]
              rw [ih _ _ hvpres, if_neg hne]
              congr 1
              ring
        | none =>
            have hne : row.1.2 ≠ f := by
              intro he
              rw [he] at hi
              rw [hf] at hi
              cases hi
            rw [ih _ _ hv, if_neg hne]
            congr 1
            ring
    | none =>
        cases hi : alGet ifmap row.1.2 with
        | some rid =>
            rw [ih _ _ hv]
            by_cases hife : row.1.2 = f
            · rw [if_pos hife]
              congr 1
              show v + _ = v + (0 + _)
              ring
            · rw [if_neg hife]
              congr 1
              ring
        | none =>
            rw [ih _ _ hv]
            by_cases hife : row.1.2 = f
            · rw [if_pos hife]
              congr 1
              show v + _ = v + (0 + _)
              ring
            · rw [if_neg hife]
              congr 1
              ring

theorem neg_sum_map {α : Type} (g : α → Int) :
    ∀ l : List α, (l.map fun x => -(g x)).sum = -((l.map g).sum) := by
  intro l
  induction l with
  | nil => simp
  | cons x xs ih =>
    simp only [List.map_cons, List.sum_cons, ih]
    ring

/-- C1: for every `watch(routes, neighbors)` round of the relay traffic
watcher and every neighbor `n`, the debt emitted for `n`'s identity in
the `TrafficUpdate` equals the sum over `n`'s output-counter rows of
`(price(dst) - local_fee) * bytes` minus the sum over `n`'s
input-counter rows of `price(dst) * bytes`, where
`price(dst) = min(route.price, max_fee) + local_fee` over installed
IPv6 `/128` routes, the node's own `mesh_ip` is priced `0`, and rows
whose destination or interface lacks a mapping contribute nothing.
Hypotheses: `n` is a watched neighbor, neighbor mesh ips and interface
names are distinct (interfaces are per-neighbor tunnels and mesh ips
identify nodes), the installed `/128` routes have distinct
destinations (Babel installs one route per prefix), and prices do not
overflow the `u32` addition `price + local_fee`. -/
theorem c1_relay_watch (local_fee max_fee mesh_ip : Nat) (n : Neighbor)
    (neighbors : List Neighbor) (routes : List Route)
    (input_counters output_counters : List ((Nat × String) × Nat))
    (hn : n ∈ neighbors)
    (hmesh : (neighbors.map fun m => m.identity.global.mesh_ip).Nodup)
    (hif : (neighbors.map fun m => m.iface_name).Nodup)
    (hnd : ((routes.filter fun r => decide (r.isIpv6 ∧ r.prefixLen = 128 ∧
      r.installed)).map fun r => r.prefixIp).Nodup)
    (hov : ∀ r ∈ routes, min r.price max_fee + local_fee < 4294967296) :
    ∃ debts, watchRelay local_fee max_fee (some mesh_ip) neighbors routes
        input_counters output_counters = .ok debts ∧
      alGet debts n.identity.global = some
        (counterSum (specPrice local_fee max_fee mesh_ip routes)
            n.iface_name
            (fun p b => (Int.ofNat p - Int.ofNat local_fee) * Int.ofNat b)
            output_counters -
          counterSum (specPrice local_fee max_fee mesh_ip routes)
            n.iface_name
            (fun p b => Int.ofNat p * Int.ofNat b)
            input_counters) := by
  obtain ⟨dests, hok, hdst⟩ :=
    getBabelInfo_spec local_fee max_fee mesh_ip routes hnd hov
  have hw : watchRelay local_fee max_fee (some mesh_ip) neighbors routes
      input_counters output_counters =
      .ok (output_counters.foldl
        (fun d row =>
          match alGet dests row.1.1,
              alGet (prepareHelperMaps neighbors).2 row.1.2 with
          | some dest, some id =>
              alModify d id fun x =>
                x + (dest - Int.ofNat local_fee) * Int.ofNat row.2
          | _, _ => d)
        (input_counters.foldl
          (fun d row =>
            match alGet dests row.1.1,
                alGet (prepareHelperMaps neighbors).2 row.1.2 with
            | some dest, some id =>
                alModify d id fun x => x - dest * Int.ofNat row.2
            | _, _ => d)
          ((prepareHelperMaps neighbors).1.foldl
            (fun d kv => alInsert d kv.2 0) []))) := by
    unfold watchRelay
    rw [hok]
  refine ⟨_, hw, ?_⟩
  have hifn : alGet (prepareHelperMaps neighbors).2 n.iface_name =
      some n.identity.global :=
    phm_if_get n neighbors ([], []) hif hn
  have hinj : ∀ iface rid,
      alGet (prepareHelperMaps neighbors).2 iface = some rid →
      rid = n.identity.global → iface = n.iface_name := by
    intro iface rid hget hrid
    rcases phm_if_get_inv neighbors ([], []) iface rid hget with
      ⟨m, hm, hmif, hmid⟩ | habs
    · have hmn : m = n :=
        List.inj_on_of_nodup_map hmesh hm hn (by rw [hmid, hrid])
      rw [← hmif, hmn]
    · simp at habs
  have hd0 : alGet ((prepareHelperMaps neighbors).1.foldl
      (fun d kv => alInsert d kv.2 0) ([] : List (Identity × Int)))
      n.identity.global = some 0 :=
    debts0_get n.identity.global (prepareHelperMaps neighbors).1 []
      (Or.inl (alGet_some_mem_values _ _ _
        (phm_mesh_get n neighbors ([], []) hmesh hn)))
  have h1 := inputFold_get dests (prepareHelperMaps neighbors).2
    n.identity.global n.iface_name hifn hinj input_counters
    ((prepareHelperMaps neighbors).1.foldl
      (fun d kv => alInsert d kv.2 0) []) 0 hd0
  have h2 := outputFold_get dests local_fee (prepareHelperMaps neighbors).2
    n.identity.global n.iface_name hifn hinj output_counters
    (input_counters.foldl
      (fun d row =>
        match alGet dests row.1.1,
            alGet (prepareHelperMaps neighbors).2 row.1.2 with
        | some dest, some id =>
            alModify d id fun x => x - dest * Int.ofNat row.2
        | _, _ => d)
      ((prepareHelperMaps neighbors).1.foldl
        (fun d kv => alInsert d kv.2 0) [])) _ h1
  rw [h2]
  have hrow_in : ∀ row ∈ input_counters,
      (if row.1.2 = n.iface_name then
        match alGet dests row.1.1 with
        | some dest => -(dest * Int.ofNat row.2)
        | none => 0
      else (0 : Int)) =
      -(if row.1.2 = n.iface_name then
        match specPrice local_fee max_fee mesh_ip routes row.1.1 with
        | some p => Int.ofNat p * Int.ofNat row.2
        | none => 0
      else 0) := by
    intro row _
    rw [hdst row.1.1]
    by_cases hife : row.1.2 = n.iface_name
    · rw [if_pos hife, if_pos hife]
      cases specPrice local_fee max_fee mesh_ip routes row.1.1 with
      | some p => rfl
      | none => simp
    · rw [if_neg hife, if_neg hife]
      simp
  have hrow_out : ∀ row ∈ output_counters,
      (if row.1.2 = n.iface_name then
        match alGet dests row.1.1 with
        | some dest => (dest - Int.ofNat local_fee) * Int.ofNat row.2
        | none => 0
      else (0 : Int)) =
      (if row.1.2 = n.iface_name then
        match specPrice local_fee max_fee mesh_ip routes row.1.1 with
        | some p => (Int.ofNat p - Int.ofNat local_fee) * Int.ofNat row.2
        | none => 0
      else 0) := by
    intro row _
    rw [hdst row.1.1]
    by_cases hife : row.1.2 = n.iface_name
    · rw [if_pos hife, if_pos hife]
      cases specPrice local_fee max_fee mesh_ip routes row.1.1 with
      | some p => rfl
      | none => rfl
    · rw [if_neg hife, if_neg hife]
  have hin : (input_counters.map fun row =>
      if row.1.2 = n.iface_name then
        match alGet dests row.1.1 with
        | some dest => -(dest * Int.ofNat row.2)
        | none => 0
      else (0 : Int)).sum =
      -(counterSum (specPrice local_fee max_fee mesh_ip routes)
        n.iface_name (fun p b => Int.ofNat p * Int.ofNat b)
        input_counters) := by
    rw [List.map_congr_left hrow_in, neg_sum_map]
    rfl
  have hout : (output_counters.map fun row =>
      if row.1.2 = n.iface_name then
        match alGet dests row.1.1 with
        | some dest => (dest - Int.ofNat local_fee) * Int.ofNat row.2
        | none => 0
      else (0 : Int)).sum =
      counterSum (specPrice local_fee max_fee mesh_ip routes)
        n.iface_name
        (fun p b => (Int.ofNat p - Int.ofNat local_fee) * Int.ofNat b)
        output_counters := by
    rw [List.map_congr_left hrow_out]
    rfl
  rw [hin, hout]
  congr 1
  ring

/-- Closed witness for `c1_relay_watch`: one neighbor on `wg0`, one
installed `/128` route priced above `max_fee`, one input row and one
output row on that destination. -/
theorem c1_relay_watch_witness :
    ∃ debts, watchRelay 1 5 (some 99)
        [⟨⟨⟨10, 0, 0⟩, 0, none⟩, "wg0", 7⟩]
        [⟨42, 128, true, true, 8, 0, 0⟩]
        [((42, "wg0"), 3)] [((42, "wg0"), 2)] = .ok debts ∧
      alGet debts (⟨10, 0, 0⟩ : Identity) = some
        (counterSum (specPrice 1 5 99 [⟨42, 128, true, true, 8, 0, 0⟩])
            "wg0"
            (fun p b => (Int.ofNat p - Int.ofNat 1) * Int.ofNat b)
            [((42, "wg0"), 2)] -
          counterSum (specPrice 1 5 99 [⟨42, 128, true, true, 8, 0, 0⟩])
            "wg0"
            (fun p b => Int.ofNat p * Int.ofNat b)
            [((42, "wg0"), 3)]) :=
  c1_relay_watch 1 5 99 ⟨⟨⟨10, 0, 0⟩, 0, none⟩, "wg0", 7⟩
    [⟨⟨⟨10, 0, 0⟩, 0, none⟩, "wg0", 7⟩]
    [⟨42, 128, true, true, 8, 0, 0⟩]
    [((42, "wg0"), 3)] [((42, "wg0"), 2)]
    (by simp) (by simp) (by simp) (by decide)
    (by decide)

/-- Closed witness for `c4_pool_invariant`. -/
theorem c4_pool_invariant_witness :
    PoolInv 65533 ⟨[65534], ([] : List (Identity × List Tunnel))⟩
      [65533] :=
  (c4_pool_invariant 65533).2 (TMState.new 65533) [] _ _
    (c4_pool_invariant 65533).1
    (TMStep.allocPort [] (fun _ => 0) (TMState.new 65533) [] 65533 [65534]
      (by decide))

end Althea
